import Mathlib

/-! # Round-robin endpoint pool (`mc.LoadBalancer`)

A shallow embedding of `src/main.go`: the `LoadBalancer` structure, its
constructor `New` and its selection routine `Get`.  The collaborators of `New`
(`minio.New`, `HealthCheck`) are functions of their arguments, `Dial`.  The
two collaborators `Get` talks to, the
liveness flag of a client (`IsOnline`) and the system clock (`time.Now`,
`time.Since`), are an environment `Env` of oracles: the answer of the `p`-th
probe and the reading of the `q`-th clock access are arbitrary functions of
`p` and `q`, so that answers may change from one probe to the next.

`Get` holds the pool's mutex for its whole body; the embedding is the
sequential body.  The `for` loop has no bound of its own, so the loop is run
with fuel; a result saying that `Get` returns also gives the fuel that is
enough for it.
-/

namespace MC

/-! ## The data model and `Get` -/

/-- A `*minio.Client`: the handle of one endpoint, identified by its address. -/
structure Client where
  addr : Nat
deriving DecidableEq, Repr

/-- A `time.Time`, as the number of nanoseconds elapsed since the zero time
`time.Time{}` (so the zero time is `0`).  A reading is one instant: its wall
clock and monotonic parts are not told apart. -/
abbrev Time := Int

/-- The zero value `time.Time{}`. -/
def zeroTime : Time := 0

/-- The method `Time.IsZero`. -/
def IsZero (t : Time) : Bool := t == zeroTime

/-- Largest `time.Duration` (an `int64` count of nanoseconds). -/
def maxDuration : Int := 9223372036854775807

/-- Smallest `time.Duration`. -/
def minDuration : Int := -9223372036854775808

/-- The constant `time.Minute`, in nanoseconds. -/
def Minute : Int := 60000000000

/-- The method `Time.Sub`: the duration `t - u`, saturated to the range of
`time.Duration`. -/
def Sub (t u : Time) : Int :=
  if t - u > maxDuration then maxDuration
  else if t - u < minDuration then minDuration
  else t - u

/-- The collaborators of `Get`: `IsOnline p c` is the answer of the `p`-th
call of `IsOnline` when it is made on client `c`, and `Now q` is what the
`q`-th access to the clock reads. -/
structure Env where
  IsOnline : Nat → Client → Bool
  Now : Nat → Time

/-- The structure `LoadBalancer` (the mutex apart). -/
structure LoadBalancer where
  clients : List Client
  failures : List Time
  currentIndex : Int
deriving DecidableEq, Repr

/-- The state of an execution: the pool, how many probes and clock accesses
the environment has served, and two ghost fields, the log of the probes made
(index and answer, newest first) and the number of loop iterations begun. -/
structure Run where
  lb : LoadBalancer
  nprobe : Nat
  nclock : Nat
  probes : List (Nat × Bool)
  iters : Nat
deriving DecidableEq, Repr

/-- What a call of `Get` produces: its three results, or a run-time panic. -/
inductive Outcome where
  | ret (idx : Int) (client : Option Client) (err : Option String)
  | panicked (msg : String)
deriving DecidableEq, Repr

/-- What one pass through the loop body does: go round again, or leave `Get`. -/
inductive Step where
  | next (r : Run)
  | done (o : Outcome) (r : Run)
deriving DecidableEq, Repr

/-- The message of `errors.New` in `Get`. -/
def noServers : String := "no servers available"

/-- The `return` of a healthy client: `return originalIdx, lb.clients[idx], nil`. -/
def success (originalIdx : Int) (c : Client) : Outcome :=
  .ret originalIdx (some c) none

/-- The `return -1, nil, errors.New("no servers available")`. -/
def failure : Outcome :=
  .ret (-1) none (some noServers)

/-- Lines 79-81: the test `lb.currentIndex == startIdx` that ends the loop. -/
def exitCheck (startIdx : Int) (r : Run) : Step :=
  if r.lb.currentIndex = startIdx then .done failure r else .next r

/-- One call of `IsOnline` on client `c` at index `i`: the answer, and the
run with the probe counted and logged. -/
def probe (env : Env) (i : Nat) (c : Client) (r : Run) : Bool × Run :=
  let a := env.IsOnline r.nprobe c
  (a, { r with nprobe := r.nprobe + 1, probes := (i, a) :: r.probes })

/-- One access to the clock: the reading, and the run with the access counted. -/
def readClock (env : Env) (r : Run) : Time × Run :=
  (env.Now r.nclock, { r with nclock := r.nclock + 1 })

/-- The assignment `lb.failures[idx] = t`. -/
def setFailure (i : Nat) (t : Time) (r : Run) : Run :=
  { r with lb := { r.lb with failures := r.lb.failures.set i t } }

/-- Lines 53-81: one iteration of the `for` loop of `Get`.  Go's `%` is
truncated division (`Int.tmod`) and panics on a zero divisor; indexing a
slice outside its bounds panics.  The sum `lb.currentIndex + 1` is not wrapped
to 64 bits: with the cursor inside the pool it is at most `len(lb.clients)`,
which a Go `int` holds. -/
def body (env : Env) (startIdx : Int) (r0 : Run) : Step :=
  let r := { r0 with iters := r0.iters + 1 }
  let n : Int := r.lb.clients.length
  if n = 0 then .done (.panicked "integer divide by zero") r else
  let idx := Int.tmod r.lb.currentIndex n
  let originalIdx := idx
  let r := { r with lb := { r.lb with currentIndex := Int.tmod (r.lb.currentIndex + 1) n } }
  if idx < 0 then .done (.panicked "index out of range") r else
  match r.lb.clients[idx.toNat]? with
  | none => .done (.panicked "index out of range") r
  | some c =>
    -- healthy idx
    let (online, r) := probe env idx.toNat c r
    if online then .done (success originalIdx c) r else
    -- recent unhealthy idx
    match r.lb.failures[idx.toNat]? with
    | none => .done (.panicked "index out of range") r
    | some f =>
      if IsZero f then
        -- mark as unhealthy
        let (now, r) := readClock env r
        .next (setFailure idx.toNat now r)
      else
        -- unhealthy idx since 10 minutes
        let (now, r) := readClock env r
        if Sub now f ≥ 10 * Minute then
          let (healthy, r) := probe env idx.toNat c r
          if healthy then
            .done (success originalIdx c) (setFailure idx.toNat zeroTime r)
          else
            let (now, r) := readClock env r
            exitCheck startIdx (setFailure idx.toNat now r)
        else
          exitCheck startIdx r

/-- The `for` loop of `Get`, run for at most `fuel` iterations. -/
def loop (env : Env) (startIdx : Int) : Nat → Run → Option (Outcome × Run)
  | 0, _ => none
  | fuel + 1, r =>
    match body env startIdx r with
    | .done o r' => some (o, r')
    | .next r' => loop env startIdx fuel r'

/-- The method `Get`: `startIdx := lb.currentIndex`, then the loop. -/
def Get (env : Env) (fuel : Nat) (r : Run) : Option (Outcome × Run) :=
  loop env r.lb.currentIndex fuel r

/-- A run about to call `Get` on pool `lb`: nothing served or logged yet. -/
def start (lb : LoadBalancer) : Run :=
  { lb := lb, nprobe := 0, nclock := 0, probes := [], iters := 0 }

/-- The pool invariant: as many failure timestamps as clients, at least one
client, and the cursor inside the pool. -/
def WellFormed (lb : LoadBalancer) : Prop :=
  lb.failures.length = lb.clients.length ∧ 1 ≤ lb.clients.length ∧
    0 ≤ lb.currentIndex ∧ lb.currentIndex < lb.clients.length

instance (lb : LoadBalancer) : Decidable (WellFormed lb) := by
  unfold WellFormed; infer_instance

/-- Consecutive calls of `Get`, `k` of them, each on the state the previous
one left: the outcomes in call order and the final state. -/
def GetMany (env : Env) (fuel : Nat) : Nat → Run → Option (List Outcome × Run)
  | 0, r => some ([], r)
  | k + 1, r =>
    match Get env fuel r with
    | none => none
    | some (o, r') =>
      match GetMany env fuel k r' with
      | none => none
      | some (os, r'') => some (o :: os, r'')

/-! ## Construction: `New` -/

/-- A Go `error`, as its message. -/
abbrev Error := String

/-- The collaborators of `New` from the `minio` package, each a function of
its arguments: `New endpoint accessKey secretKey secure` is `minio.New` on the
endpoint with static credentials and the `Secure` option, and
`HealthCheck client d` is the error result of `client.HealthCheck(d)`. -/
structure Dial where
  New : String → String → String → Bool → Except Error Client
  HealthCheck : Client → Int → Except Error Unit

/-- Lines 24-34: create the client of one endpoint and check its health;
the first error of the two is the result. -/
def connect (dial : Dial) (accessKey secretKey : String) (secure : Bool)
    (healthCheckDuration : Int) (endpoint : String) : Except Error Client :=
  match dial.New endpoint accessKey secretKey secure with
  | .error err => .error err
  | .ok client =>
    match dial.HealthCheck client healthCheckDuration with
    | .error err => .error err
    | .ok _ => .ok client

/-- Lines 23-38: the `range` loop of `New` over the endpoints that remain,
`i` being the index of the first of them. -/
def newLoop (dial : Dial) (accessKey secretKey : String) (secure : Bool)
    (healthCheckDuration : Int) :
    List String → Nat → List Client → List Time → Except Error (List Client × List Time)
  | [], _, clients, failures => .ok (clients, failures)
  | endpoint :: rest, i, clients, failures =>
    match connect dial accessKey secretKey secure healthCheckDuration endpoint with
    | .error err => .error err
    | .ok client =>
      newLoop dial accessKey secretKey secure healthCheckDuration rest (i + 1)
        (clients ++ [client]) (failures.set i zeroTime)

/-- The function `New`: its two results, the pool (or nil) and the error (or nil). -/
def New (dial : Dial) (endpoints : List String) (accessKey secretKey : String)
    (secure : Bool) (healthCheckDuration : Int) : Option LoadBalancer × Option Error :=
  let failures := List.replicate endpoints.length zeroTime
  match newLoop dial accessKey secretKey secure healthCheckDuration endpoints 0 [] failures with
  | .error err => (none, some err)
  | .ok (clients, failures) =>
    (some { clients := clients, failures := failures, currentIndex := 0 }, none)

/-- The pools a program can come to hold: the pool a successful `New`
returned, and the pool a returning call of `Get` leaves when called, under any
environment, on a pool it could come to hold. -/
inductive Reachable (dial : Dial) (endpoints : List String) (ak sk : String) (secure : Bool)
    (d : Int) : LoadBalancer → Prop where
  | new (lb : LoadBalancer) (h : New dial endpoints ak sk secure d = (some lb, none)) :
      Reachable dial endpoints ak sk secure d lb
  | get (env : Env) (fuel : Nat) (r : Run) (o : Outcome) (r' : Run)
      (h : Reachable dial endpoints ak sk secure d r.lb)
      (hget : Get env fuel r = some (o, r')) :
      Reachable dial endpoints ak sk secure d r'.lb

/-! ## Devices of the proofs -/

/-- The run an iteration at index `i` leaves: the cursor moved one step, the
failure timestamps `fs`, `dp` more probes and `dc` more clock accesses
served, and `log` put in front of the probe log. -/
def after (r : Run) (i : Nat) (fs : List Time) (dp dc : Nat) (log : List (Nat × Bool)) : Run :=
  { lb := { clients := r.lb.clients, failures := fs,
            currentIndex := (((i + 1) % r.lb.clients.length : Nat) : Int) },
    nprobe := r.nprobe + dp, nclock := r.nclock + dc,
    probes := log ++ r.probes, iters := r.iters + 1 }

/-- The loop body on a pool whose cursor is at the valid index `i`, where the
client is `c` and the failure timestamp `f`: the five ways through it, with
the panics and the integer conversions resolved. -/
def bodyAt (env : Env) (startIdx : Int) (i : Nat) (c : Client) (f : Time) (r : Run) : Step :=
  if env.IsOnline r.nprobe c then
    .done (success i c) (after r i r.lb.failures 1 0 [(i, true)])
  else if f = 0 then
    .next (after r i (r.lb.failures.set i (env.Now r.nclock)) 1 1 [(i, false)])
  else if 10 * Minute ≤ Sub (env.Now r.nclock) f then
    if env.IsOnline (r.nprobe + 1) c then
      .done (success i c) (after r i (r.lb.failures.set i zeroTime) 2 1 [(i, true), (i, false)])
    else
      exitCheck startIdx
        (after r i (r.lb.failures.set i (env.Now (r.nclock + 1))) 2 2 [(i, false), (i, false)])
  else
    exitCheck startIdx (after r i r.lb.failures 1 1 [(i, false)])

/-- The state of a sweep: the loop that started at index `s0`, with `it0`
iterations counted before it, is about to begin its iteration number `m`. -/
structure At (cl : List Client) (s0 it0 m : Nat) (r : Run) : Prop where
  clients : r.lb.clients = cl
  flen : r.lb.failures.length = cl.length
  cur : r.lb.currentIndex = (((s0 + m) % cl.length : Nat) : Int)
  iters : r.iters = it0 + m

/-- The ways through one iteration of the loop that started at index `s0`
and is at its iteration number `m`, so at index `(s0 + m) % N`: what the
environment answered, and the step the body takes. -/
inductive Iter (env : Env) (cl : List Client) (s0 m : Nat) (r : Run) : Step → Prop where
  | healthy (c : Client)
      (hc : cl[(s0 + m) % cl.length]? = some c)
      (h1 : env.IsOnline r.nprobe c = true) :
      Iter env cl s0 m r
        (.done (success (((s0 + m) % cl.length : Nat) : Int) c)
          (after r ((s0 + m) % cl.length) r.lb.failures 1 0 [((s0 + m) % cl.length, true)]))
  | marked (c : Client)
      (hc : cl[(s0 + m) % cl.length]? = some c)
      (hf : r.lb.failures[(s0 + m) % cl.length]? = some 0)
      (h1 : env.IsOnline r.nprobe c = false) :
      Iter env cl s0 m r
        (.next (after r ((s0 + m) % cl.length)
          (r.lb.failures.set ((s0 + m) % cl.length) (env.Now r.nclock)) 1 1
          [((s0 + m) % cl.length, false)]))
  | revived (c : Client) (f : Time)
      (hc : cl[(s0 + m) % cl.length]? = some c)
      (hf : r.lb.failures[(s0 + m) % cl.length]? = some f)
      (h1 : env.IsOnline r.nprobe c = false) (hz : f ≠ 0)
      (hold : 10 * Minute ≤ Sub (env.Now r.nclock) f)
      (h2 : env.IsOnline (r.nprobe + 1) c = true) :
      Iter env cl s0 m r
        (.done (success (((s0 + m) % cl.length : Nat) : Int) c)
          (after r ((s0 + m) % cl.length)
            (r.lb.failures.set ((s0 + m) % cl.length) zeroTime) 2 1
            [((s0 + m) % cl.length, true), ((s0 + m) % cl.length, false)]))
  | refreshedExit (c : Client) (f : Time)
      (hc : cl[(s0 + m) % cl.length]? = some c)
      (hf : r.lb.failures[(s0 + m) % cl.length]? = some f)
      (h1 : env.IsOnline r.nprobe c = false) (hz : f ≠ 0)
      (hold : 10 * Minute ≤ Sub (env.Now r.nclock) f)
      (h2 : env.IsOnline (r.nprobe + 1) c = false)
      (hm : (m + 1) % cl.length = 0) :
      Iter env cl s0 m r
        (.done failure
          (after r ((s0 + m) % cl.length)
            (r.lb.failures.set ((s0 + m) % cl.length) (env.Now (r.nclock + 1))) 2 2
            [((s0 + m) % cl.length, false), ((s0 + m) % cl.length, false)]))
  | refreshedNext (c : Client) (f : Time)
      (hc : cl[(s0 + m) % cl.length]? = some c)
      (hf : r.lb.failures[(s0 + m) % cl.length]? = some f)
      (h1 : env.IsOnline r.nprobe c = false) (hz : f ≠ 0)
      (hold : 10 * Minute ≤ Sub (env.Now r.nclock) f)
      (h2 : env.IsOnline (r.nprobe + 1) c = false)
      (hm : (m + 1) % cl.length ≠ 0) :
      Iter env cl s0 m r
        (.next
          (after r ((s0 + m) % cl.length)
            (r.lb.failures.set ((s0 + m) % cl.length) (env.Now (r.nclock + 1))) 2 2
            [((s0 + m) % cl.length, false), ((s0 + m) % cl.length, false)]))
  | coolingExit (c : Client) (f : Time)
      (hc : cl[(s0 + m) % cl.length]? = some c)
      (hf : r.lb.failures[(s0 + m) % cl.length]? = some f)
      (h1 : env.IsOnline r.nprobe c = false) (hz : f ≠ 0)
      (hnew : ¬ 10 * Minute ≤ Sub (env.Now r.nclock) f)
      (hm : (m + 1) % cl.length = 0) :
      Iter env cl s0 m r
        (.done failure
          (after r ((s0 + m) % cl.length) r.lb.failures 1 1 [((s0 + m) % cl.length, false)]))
  | coolingNext (c : Client) (f : Time)
      (hc : cl[(s0 + m) % cl.length]? = some c)
      (hf : r.lb.failures[(s0 + m) % cl.length]? = some f)
      (h1 : env.IsOnline r.nprobe c = false) (hz : f ≠ 0)
      (hnew : ¬ 10 * Minute ≤ Sub (env.Now r.nclock) f)
      (hm : (m + 1) % cl.length ≠ 0) :
      Iter env cl s0 m r
        (.next
          (after r ((s0 + m) % cl.length) r.lb.failures 1 1 [((s0 + m) % cl.length, false)]))

/-- What a successful call leaves behind when it returned the index at
offset `d` from the start `s0`. -/
structure Served (cl : List Client) (s0 it0 d : Nat) (o : Outcome) (r : Run) : Prop where
  out : ∃ c, cl[(s0 + d) % cl.length]? = some c ∧
    o = success (((s0 + d) % cl.length : Nat) : Int) c
  after : At cl s0 it0 (d + 1) r

/-- The failure timestamps of the first `m` indices of the sweep from `k` are set. -/
def MarkedUpTo (n k m : Nat) (fs : List Time) : Prop :=
  ∀ j, j < m → ∀ f, fs[(k + j) % n]? = some f → f ≠ zeroTime

/-- What a call that started with probe log `log0` may return: the failure
result, or a valid index with its client right after a healthy probe of it. -/
def Shape (cl : List Client) (log0 : List (Nat × Bool)) (o : Outcome) (r : Run) : Prop :=
  o = failure ∨
    ∃ (i : Nat) (c : Client) (earlier : List (Nat × Bool)), i < cl.length ∧ cl[i]? = some c ∧
      o = success (i : Int) c ∧ r.probes = (i, true) :: (earlier ++ log0)

/-- What a returning call leaves: it ended in its iteration number `m`, so at
index `(k + m) % N`, with the cursor one step further; every earlier
iteration logged an unhealthy probe of its index; and the result is the
failure result or that index with its client. -/
def Traced (cl : List Client) (k it0 : Nat) (log0 : List (Nat × Bool))
    (o : Outcome) (r : Run) : Prop :=
  ∃ m, At cl k it0 (m + 1) r ∧
    (∃ new, r.probes = new ++ log0 ∧ ∀ j, j < m → ((k + j) % cl.length, false) ∈ new) ∧
    (o = failure ∨ ∃ c, cl[(k + m) % cl.length]? = some c ∧
      o = success (((k + m) % cl.length : Nat) : Int) c)

/-- Where a returning call leaves the cursor: back at the start `k` after the
failure result, one step past the returned index after a success. -/
def CursorAfter (cl : List Client) (k : Nat) (o : Outcome) (r : Run) : Prop :=
  (o = failure ∧ r.lb.currentIndex = (k : Int)) ∨
    ∃ (i : Nat) (c : Client), o = success (i : Int) c ∧
      r.lb.currentIndex = (((i + 1) % cl.length : Nat) : Int)

/-- What a call leaves when the clock never reads the zero time: it ended in
an iteration number `m < 2 N`; after the failure result the loop has been
through a whole number of sweeps and every timestamp it passed is set. -/
def Swept (cl : List Client) (k it0 : Nat) (o : Outcome) (r : Run) : Prop :=
  ∃ m, m < 2 * cl.length ∧ At cl k it0 (m + 1) r ∧
    ((o = failure ∧ (m + 1) % cl.length = 0 ∧
        MarkedUpTo cl.length k (m + 1) r.lb.failures) ∨
      ∃ c, o = success (((k + m) % cl.length : Nat) : Int) c)

/-- How many of the logged probes were made on index `i`. -/
def probesOf (i : Nat) (log : List (Nat × Bool)) : Nat :=
  log.countP (fun e => e.1 == i)

/-- How many of the first `m` iterations of a loop that started at index `k`
in a pool of `n` endpoints examine index `i`. -/
def visits (n k i m : Nat) : Nat :=
  (List.range m).countP (fun j => (k + j) % n == i)

/-- The run a step of the loop leaves. -/
def Step.run : Step → Run
  | .next r => r
  | .done _ r => r

/-! ## Concrete pools and environments -/

/-- An environment in which only the client at address 12 is healthy. -/
def envC1 : Env := { IsOnline := fun _ c => c.addr == 12, Now := fun q => 100 + q }

/-- Three endpoints, cursor at index 1, index 1 already marked. -/
def poolC1 : LoadBalancer :=
  { clients := [⟨10⟩, ⟨11⟩, ⟨12⟩], failures := [0, 7, 0], currentIndex := 1 }

/-- An environment in which every probe reports healthy. -/
def envC2 : Env := { IsOnline := fun _ _ => true, Now := fun q => 100 + q }

/-- A fresh pool of three endpoints. -/
def poolC2 : LoadBalancer :=
  { clients := [⟨10⟩, ⟨11⟩, ⟨12⟩], failures := [0, 0, 0], currentIndex := 0 }

/-- An environment in which every probe reports unhealthy. -/
def envC3 : Env := { IsOnline := fun _ _ => false, Now := fun q => 100 + q }

/-- A fresh pool of one endpoint. -/
def poolC3 : LoadBalancer :=
  { clients := [⟨10⟩], failures := [0], currentIndex := 0 }

/-- An environment in which only the client at address 11 is unhealthy. -/
def envC4 : Env := { IsOnline := fun _ c => c.addr != 11, Now := fun q => 100 + q }

/-- A fresh pool of three endpoints, the unhealthy one at index 1. -/
def poolC4 : LoadBalancer :=
  { clients := [⟨10⟩, ⟨11⟩, ⟨12⟩], failures := [0, 0, 0], currentIndex := 0 }

/-- An environment whose fourth probe alone reports healthy and whose clock advances by more than ten minutes per reading. -/
def envC5 : Env := { IsOnline := fun p _ => p == 3, Now := fun q => 100 + 700000000000 * q }

/-- A fresh pool of two endpoints with the cursor at index 1. -/
def poolC5 : LoadBalancer :=
  { clients := [⟨10⟩, ⟨11⟩], failures := [0, 0], currentIndex := 1 }

/-- The run `Get` leaves on `poolC5` under `envC5`. -/
def afterC5 : Run :=
  { lb := { clients := [⟨10⟩, ⟨11⟩], failures := [700000000100, 0], currentIndex := 0 },
    nprobe := 4, nclock := 3,
    probes := [(1, true), (1, false), (0, false), (1, false)], iters := 3 }

/-- An environment whose second probe alone reports healthy, read long after time 5. -/
def envC6 : Env :=
  { IsOnline := fun p _ => p == 1, Now := fun q => 700000000000 + q }

/-- Two endpoints, cursor at index 1, whose failure timestamp is 5. -/
def poolC6 : LoadBalancer :=
  { clients := [⟨10⟩, ⟨11⟩], failures := [0, 5], currentIndex := 1 }

/-- An environment in which every probe reports unhealthy. -/
def envC7 : Env := { IsOnline := fun _ _ => false, Now := fun q => 100 + q }

/-- A fresh pool of one endpoint. -/
def poolC7 : LoadBalancer := { clients := [⟨10⟩], failures := [0], currentIndex := 0 }

/-- The run the first `Get` leaves on `poolC7`. -/
def afterC7 : Run :=
  { lb := { clients := [⟨10⟩], failures := [100], currentIndex := 0 },
    nprobe := 2, nclock := 2, probes := [(0, false), (0, false)], iters := 2 }

/-- A fresh pool of three endpoints. -/
def poolC7three : LoadBalancer :=
  { clients := [⟨10⟩, ⟨11⟩, ⟨12⟩], failures := [0, 0, 0], currentIndex := 0 }

/-- The run the first `Get` leaves on `poolC7three`. -/
def afterC7three : Run :=
  { lb := { clients := [⟨10⟩, ⟨11⟩, ⟨12⟩], failures := [100, 101, 102], currentIndex := 0 },
    nprobe := 6, nclock := 6,
    probes := [(2, false), (1, false), (0, false), (2, false), (1, false), (0, false)],
    iters := 6 }

/-- An environment whose first probe alone reports unhealthy. -/
def envC9 : Env := { IsOnline := fun p _ => p != 0, Now := fun q => 100 + q }

/-- A fresh pool of two endpoints. -/
def poolC9 : LoadBalancer :=
  { clients := [⟨10⟩, ⟨11⟩], failures := [0, 0], currentIndex := 0 }

/-- The run two calls of `Get` leave on `poolC9`. -/
def afterC9 : Run :=
  { lb := { clients := [⟨10⟩, ⟨11⟩], failures := [100, 0], currentIndex := 1 },
    nprobe := 3, nclock := 1, probes := [(0, true), (1, true), (0, false)], iters := 3 }

/-- An environment in which only the client at address 10 is healthy. -/
def envC8 : Env := { IsOnline := fun _ c => c.addr == 10, Now := fun q => 100 + q }

/-- A fresh pool of two endpoints, the healthy one at index 0. -/
def poolC8 : LoadBalancer :=
  { clients := [⟨10⟩, ⟨11⟩], failures := [0, 0], currentIndex := 0 }

/-- The run after the first call on `poolC8`. -/
def midC8 : Run :=
  { lb := { clients := [⟨10⟩, ⟨11⟩], failures := [0, 0], currentIndex := 1 },
    nprobe := 1, nclock := 0, probes := [(0, true)], iters := 1 }

/-- The run after the second call on `poolC8`. -/
def afterC8 : Run :=
  { lb := { clients := [⟨10⟩, ⟨11⟩], failures := [0, 100], currentIndex := 1 },
    nprobe := 3, nclock := 1, probes := [(0, true), (1, false), (0, true)], iters := 3 }

/-- An environment in which every probe reports healthy and the clock reads 200. -/
def envC10 : Env := { IsOnline := fun _ _ => true, Now := fun _ => 200 }

/-- One endpoint whose failure timestamp is 100. -/
def poolC10 : LoadBalancer := { clients := [⟨10⟩], failures := [100], currentIndex := 0 }

/-- The run `Get` leaves on `poolC10`. -/
def afterC10 : Run :=
  { lb := { clients := [⟨10⟩], failures := [100], currentIndex := 0 },
    nprobe := 1, nclock := 0, probes := [(0, true)], iters := 1 }

/-- An environment in which every probe reports unhealthy and the clock reads 200. -/
def envC10w : Env := { IsOnline := fun _ _ => false, Now := fun _ => 200 }

/-- Two endpoints, index 0 marked at time 100, index 1 not marked. -/
def poolC10w : LoadBalancer :=
  { clients := [⟨10⟩, ⟨11⟩], failures := [100, 0], currentIndex := 0 }

/-- The pool `New` builds from no endpoint at all. -/
def emptyPool : LoadBalancer := { clients := [], failures := [], currentIndex := 0 }

/-- The pool `New` builds with `dialC11` from the endpoints "a" and "bc". -/
def poolC14 : LoadBalancer :=
  { clients := [⟨1⟩, ⟨2⟩], failures := [0, 0], currentIndex := 0 }

/-- An environment whose first probe alone reports healthy. -/
def envC19 : Env := { IsOnline := fun p _ => p == 0, Now := fun q => 100 + q }

/-- Three endpoints with the cursor at the last index. -/
def poolC19 : LoadBalancer :=
  { clients := [⟨10⟩, ⟨11⟩, ⟨12⟩], failures := [0, 0, 0], currentIndex := 2 }

/-- The run `Get` leaves on `poolC19` under `envC19`. -/
def afterC19 : Run :=
  { lb := { clients := [⟨10⟩, ⟨11⟩, ⟨12⟩], failures := [0, 0, 0], currentIndex := 0 },
    nprobe := 1, nclock := 0, probes := [(2, true)], iters := 1 }

/-- An environment whose answers change between probes: only the sixth probe
reports healthy. -/
def envC18 : Env := { IsOnline := fun p _ => p == 5, Now := fun q => 100 + q }

/-- A fresh pool of three endpoints. -/
def poolC18 : LoadBalancer :=
  { clients := [⟨10⟩, ⟨11⟩, ⟨12⟩], failures := [0, 0, 0], currentIndex := 0 }

/-- An environment in which no probe reports healthy. -/
def envC20 : Env := { IsOnline := fun _ _ => false, Now := fun q => 100 + q }

/-- A fresh pool of three endpoints. -/
def poolC20 : LoadBalancer :=
  { clients := [⟨10⟩, ⟨11⟩, ⟨12⟩], failures := [0, 0, 0], currentIndex := 0 }

/-- The run the first `Get` leaves on `poolC20` under `envC20`. -/
def afterC20 : Run :=
  { lb := { clients := [⟨10⟩, ⟨11⟩, ⟨12⟩], failures := [100, 101, 102], currentIndex := 0 },
    nprobe := 6, nclock := 6,
    probes := [(2, false), (1, false), (0, false), (2, false), (1, false), (0, false)],
    iters := 6 }

/-- An environment in which no probe reports healthy and the clock reads 200. -/
def envC15 : Env := { IsOnline := fun _ _ => false, Now := fun _ => 200 }

/-- Two endpoints, index 0 marked at time 100, index 1 not marked. -/
def poolC15 : LoadBalancer :=
  { clients := [⟨10⟩, ⟨11⟩], failures := [100, 0], currentIndex := 0 }

/-- The run `Get` leaves on `poolC15` under `envC15`. -/
def afterC15 : Run :=
  { lb := { clients := [⟨10⟩, ⟨11⟩], failures := [100, 200], currentIndex := 0 },
    nprobe := 4, nclock := 4,
    probes := [(1, false), (0, false), (1, false), (0, false)], iters := 4 }

/-- An environment whose second probe alone reports healthy and whose clock
reads ten minutes after time 100. -/
def envC16 : Env := { IsOnline := fun p _ => p == 1, Now := fun _ => 600000000100 }

/-- One endpoint whose failure timestamp is 100. -/
def poolC16 : LoadBalancer := { clients := [⟨10⟩], failures := [100], currentIndex := 0 }

/-- The run `Get` leaves on `poolC16` under `envC16`. -/
def afterC16 : Run :=
  { lb := { clients := [⟨10⟩], failures := [0], currentIndex := 0 },
    nprobe := 2, nclock := 1, probes := [(0, true), (0, false)], iters := 1 }

/-! ## The loop body on a well-formed pool -/

theorem tmod_cursor (i n : Nat) (h : i < n) : Int.tmod (i : Int) (n : Int) = (i : Int) := by
  rw [Int.tmod_eq_emod (by omega) (by omega)]
  exact Int.emod_eq_of_lt (by omega) (by omega)

theorem tmod_next (i n : Nat) : Int.tmod ((i : Int) + 1) (n : Int) = (((i + 1) % n : Nat) : Int) := by
  rw [Int.tmod_eq_emod (by omega) (by omega)]
  push_cast
  rfl

theorem body_eq (env : Env) (startIdx : Int) (r : Run) (i : Nat) (c : Client) (f : Time)
    (hcur : r.lb.currentIndex = i) (hc : r.lb.clients[i]? = some c)
    (hf : r.lb.failures[i]? = some f) :
    body env startIdx r = bodyAt env startIdx i c f r := by
  have hi : i < r.lb.clients.length := by
    rcases List.getElem?_eq_some_iff.mp hc with ⟨h, _⟩
    exact h
  have hn : (r.lb.clients.length : Int) ≠ 0 := by omega
  unfold body bodyAt after
  simp only [hcur, tmod_cursor i _ hi, tmod_next, hn, if_false, Int.toNat_ofNat, hc]
  have hneg : ¬ ((i : Int) < 0) := by omega
  simp only [hneg, if_false, probe, readClock, setFailure, hf, IsZero, zeroTime]
  by_cases ho : env.IsOnline r.nprobe c = true
  · simp [ho]
  · by_cases ho2 : env.IsOnline (r.nprobe + 1) c = true <;> simp [ho, ho2, Nat.add_assoc]

/-- Total-correctness rule for the loop: an invariant that every iteration
keeps while decreasing a measure gives a result within `μ r + 1` iterations. -/
theorem loop_total (env : Env) (startIdx : Int) (Inv : Run → Prop)
    (Post : Outcome → Run → Prop) (μ : Run → Nat)
    (hdone : ∀ r o r', Inv r → body env startIdx r = .done o r' → Post o r')
    (hnext : ∀ r r', Inv r → body env startIdx r = .next r' → Inv r' ∧ μ r' < μ r) :
    ∀ fuel r, Inv r → μ r < fuel →
      ∃ o r', loop env startIdx fuel r = some (o, r') ∧ Post o r' := by
  intro fuel
  induction fuel with
  | zero => intro r _ h; omega
  | succ k ih =>
    intro r hinv hμ
    unfold loop
    cases hb : body env startIdx r with
    | done o r' => exact ⟨o, r', rfl, hdone r o r' hinv hb⟩
    | next r' =>
      obtain ⟨hinv', hlt⟩ := hnext r r' hinv hb
      exact ih r' hinv' (by omega)

/-- Partial-correctness rule for the loop. -/
theorem loop_partial (env : Env) (startIdx : Int) (Inv : Run → Prop)
    (Post : Outcome → Run → Prop)
    (hdone : ∀ r o r', Inv r → body env startIdx r = .done o r' → Post o r')
    (hnext : ∀ r r', Inv r → body env startIdx r = .next r' → Inv r') :
    ∀ fuel r o r', Inv r → loop env startIdx fuel r = some (o, r') → Post o r' := by
  intro fuel
  induction fuel with
  | zero => intro r o r' _ h; simp [loop] at h
  | succ k ih =>
    intro r o r' hinv h
    unfold loop at h
    cases hb : body env startIdx r with
    | done o1 r1 =>
      rw [hb] at h
      simp only [Option.some.injEq, Prod.mk.injEq] at h
      obtain ⟨rfl, rfl⟩ := h
      exact hdone r _ _ hinv hb
    | next r1 =>
      rw [hb] at h
      exact ih r1 o r' (hnext r r1 hinv hb) h

theorem At.advance {cl : List Client} {s0 it0 m : Nat} {r : Run} (h : At cl s0 it0 m r)
    (fs : List Time) (hfs : fs.length = cl.length) (dp dc : Nat) (log : List (Nat × Bool)) :
    At cl s0 it0 (m + 1) (after r ((s0 + m) % cl.length) fs dp dc log) where
  clients := h.clients
  flen := hfs
  cur := by
    show ((((s0 + m) % cl.length + 1) % r.lb.clients.length : Nat) : Int) = _
    rw [h.clients, Nat.add_mod, Nat.mod_mod, ← Nat.add_mod, Nat.add_assoc]
  iters := by
    show r.iters + 1 = _
    rw [h.iters, Nat.add_assoc]

/-- The cursor is back at the start exactly after a whole number of sweeps. -/
theorem cursor_eq_start_iff (s0 m n : Nat) (hs : s0 < n) :
    (((s0 + m) % n : Nat) : Int) = (s0 : Int) ↔ m % n = 0 := by
  rw [Nat.cast_inj]
  constructor
  · intro h
    have h1 : (s0 + m) % n = (s0 + 0) % n := by rw [h, Nat.add_zero, Nat.mod_eq_of_lt hs]
    have h2 : m % n = 0 % n := Nat.ModEq.add_left_cancel' s0 h1
    simpa using h2
  · intro h
    rw [Nat.add_mod, h, Nat.add_zero, Nat.mod_mod, Nat.mod_eq_of_lt hs]

theorem At.exitCheck_eq {cl : List Client} {s0 it0 m : Nat} {r : Run} (h : At cl s0 it0 m r)
    (hs : s0 < cl.length) :
    exitCheck (s0 : Int) r = if m % cl.length = 0 then .done failure r else .next r := by
  unfold MC.exitCheck
  rw [h.cur]
  by_cases hm : m % cl.length = 0
  · rw [if_pos ((cursor_eq_start_iff s0 m cl.length hs).mpr hm), if_pos hm]
  · rw [if_neg (fun e => hm ((cursor_eq_start_iff s0 m cl.length hs).mp e)), if_neg hm]

theorem At.body_normal {cl : List Client} {s0 it0 m : Nat} {r : Run} (h : At cl s0 it0 m r)
    (hN : 0 < cl.length) (env : Env) (startIdx : Int) :
    ∃ c f, cl[(s0 + m) % cl.length]? = some c ∧
      r.lb.failures[(s0 + m) % cl.length]? = some f ∧
      body env startIdx r = bodyAt env startIdx ((s0 + m) % cl.length) c f r := by
  have hi : (s0 + m) % cl.length < cl.length := Nat.mod_lt _ hN
  have hc : cl[(s0 + m) % cl.length]? = some (cl[(s0 + m) % cl.length]) :=
    List.getElem?_eq_getElem hi
  have hi' : (s0 + m) % cl.length < r.lb.failures.length := by rw [h.flen]; exact hi
  have hf : r.lb.failures[(s0 + m) % cl.length]? = some (r.lb.failures[(s0 + m) % cl.length]) :=
    List.getElem?_eq_getElem hi'
  refine ⟨_, _, hc, hf, ?_⟩
  exact MC.body_eq env startIdx r _ _ _ h.cur (by rw [h.clients]; exact hc) hf

/-- Every iteration of a sweep over a pool goes one of the ways of `Iter`. -/
theorem At.step {cl : List Client} {s0 it0 m : Nat} {r : Run} (h : At cl s0 it0 m r)
    (hs : s0 < cl.length) (env : Env) :
    Iter env cl s0 m r (body env (s0 : Int) r) := by
  obtain ⟨c, f, hc, hf, hbody⟩ := h.body_normal (by omega) env (s0 : Int)
  have hset : ∀ t, (r.lb.failures.set ((s0 + m) % cl.length) t).length = cl.length := by
    intro t; rw [List.length_set, h.flen]
  rw [hbody]
  unfold bodyAt
  by_cases h1 : env.IsOnline r.nprobe c = true
  · rw [if_pos h1]
    exact .healthy c hc h1
  · rw [if_neg h1]
    have h1' : env.IsOnline r.nprobe c = false := by simpa using h1
    by_cases hz : f = 0
    · rw [if_pos hz]
      subst hz
      exact .marked c hc hf h1'
    · rw [if_neg hz]
      by_cases hold : 10 * Minute ≤ Sub (env.Now r.nclock) f
      · rw [if_pos hold]
        by_cases h2 : env.IsOnline (r.nprobe + 1) c = true
        · rw [if_pos h2]
          exact .revived c f hc hf h1' hz hold h2
        · rw [if_neg h2]
          have h2' : env.IsOnline (r.nprobe + 1) c = false := by simpa using h2
          rw [(h.advance _ (hset _) 2 2 _).exitCheck_eq hs]
          by_cases hm : (m + 1) % cl.length = 0
          · rw [if_pos hm]
            exact .refreshedExit c f hc hf h1' hz hold h2' hm
          · rw [if_neg hm]
            exact .refreshedNext c f hc hf h1' hz hold h2' hm
      · rw [if_neg hold]
        rw [(h.advance _ h.flen 1 1 _).exitCheck_eq hs]
        by_cases hm : (m + 1) % cl.length = 0
        · rw [if_pos hm]
          exact .coolingExit c f hc hf h1' hz hold hm
        · rw [if_neg hm]
          exact .coolingNext c f hc hf h1' hz hold hm

theorem mod_succ_ne_zero (m n : Nat) (h : m + 1 < n) : (m + 1) % n ≠ 0 := by
  rw [Nat.mod_eq_of_lt h]; omega

/-! ## Returning the first healthy index -/

theorem loop_first_healthy (env : Env) (cl : List Client) (s0 d it0 : Nat)
    (hs0 : s0 < cl.length) (hd : d < cl.length)
    (hbad : ∀ m, m < d → ∀ p c, cl[(s0 + m) % cl.length]? = some c → env.IsOnline p c = false)
    (hgood : ∀ p c, cl[(s0 + d) % cl.length]? = some c → env.IsOnline p c = true)
    (fuel : Nat) (r : Run) (m : Nat) (hm : m ≤ d) (hr : At cl s0 it0 m r)
    (hfuel : d - m < fuel) :
    ∃ o r', loop env (s0 : Int) fuel r = some (o, r') ∧ Served cl s0 it0 d o r' := by
  have key : ∀ r m, m ≤ d → At cl s0 it0 m r → ∀ st, Iter env cl s0 m r st →
      (∀ o r', st = .done o r' → Served cl s0 it0 d o r') ∧
      (∀ r', st = .next r' → m + 1 ≤ d ∧ At cl s0 it0 (m + 1) r') := by
    intro r m hm hr st hst
    have hset : ∀ t, (r.lb.failures.set ((s0 + m) % cl.length) t).length = cl.length := by
      intro t; rw [List.length_set, hr.flen]
    have hne : m ≠ d → m + 1 ≤ d ∧ (m + 1) % cl.length ≠ 0 := fun hne =>
      ⟨by omega, mod_succ_ne_zero m _ (by omega)⟩
    have hoff : ∀ p c, cl[(s0 + m) % cl.length]? = some c → env.IsOnline p c = false → m ≠ d := by
      intro p c hc h1 e
      subst e
      rw [hgood p c hc] at h1
      exact Bool.noConfusion h1
    have hon : ∀ p c, cl[(s0 + m) % cl.length]? = some c → env.IsOnline p c = true → m = d := by
      intro p c hc h1
      by_contra e
      rw [hbad m (by omega) p c hc] at h1
      exact Bool.noConfusion h1
    cases hst with
    | healthy c hc h1 =>
      refine ⟨?_, fun r' e => Step.noConfusion e⟩
      intro o r' e
      injection e with e1 e2
      subst e1 e2
      have := hon _ c hc h1
      subst this
      exact ⟨⟨c, hc, rfl⟩, hr.advance _ hr.flen _ _ _⟩
    | marked c hc hf h1 =>
      refine ⟨fun o r' e => Step.noConfusion e, ?_⟩
      intro r' e
      injection e with e1
      subst e1
      exact ⟨(hne (hoff _ c hc h1)).1, hr.advance _ (hset _) _ _ _⟩
    | revived c f hc hf h1 hz hold h2 =>
      refine ⟨?_, fun r' e => Step.noConfusion e⟩
      intro o r' e
      injection e with e1 e2
      subst e1 e2
      have := hon _ c hc h2
      subst this
      exact ⟨⟨c, hc, rfl⟩, hr.advance _ (hset _) _ _ _⟩
    | refreshedExit c f hc hf h1 hz hold h2 hm' =>
      exact absurd hm' (hne (hoff _ c hc h1)).2
    | refreshedNext c f hc hf h1 hz hold h2 hm' =>
      refine ⟨fun o r' e => Step.noConfusion e, ?_⟩
      intro r' e
      injection e with e1
      subst e1
      exact ⟨(hne (hoff _ c hc h1)).1, hr.advance _ (hset _) _ _ _⟩
    | coolingExit c f hc hf h1 hz hnew hm' =>
      exact absurd hm' (hne (hoff _ c hc h1)).2
    | coolingNext c f hc hf h1 hz hnew hm' =>
      refine ⟨fun o r' e => Step.noConfusion e, ?_⟩
      intro r' e
      injection e with e1
      subst e1
      exact ⟨(hne (hoff _ c hc h1)).1, hr.advance _ hr.flen _ _ _⟩
  apply loop_total env (s0 : Int) (fun r => ∃ m, m ≤ d ∧ At cl s0 it0 m r)
    (Served cl s0 it0 d) (fun r => it0 + d - r.iters)
  · rintro r o r' ⟨m, hm, hr⟩ hb
    exact (key r m hm hr _ (hr.step hs0 env)).1 o r' hb
  · rintro r r' ⟨m, hm, hr⟩ hb
    obtain ⟨h1, h2⟩ := (key r m hm hr _ (hr.step hs0 env)).2 r' hb
    exact ⟨⟨m + 1, h1, h2⟩, by rw [h2.iters, hr.iters]; omega⟩
  · exact ⟨m, hm, hr⟩
  · simp [hr.iters]; omega

theorem At.start {r : Run} {k : Nat} (hwf : WellFormed r.lb) (hk : r.lb.currentIndex = (k : Int)) :
    k < r.lb.clients.length ∧ At r.lb.clients k r.iters 0 r := by
  obtain ⟨h1, _, _, h4⟩ := hwf
  have hlt : k < r.lb.clients.length := by rw [hk] at h4; exact_mod_cast h4
  exact ⟨hlt, rfl, h1, by rw [hk, Nat.add_zero, Nat.mod_eq_of_lt hlt], rfl⟩

theorem At.wellFormed {cl : List Client} {s0 it0 m : Nat} {r : Run} (h : At cl s0 it0 m r)
    (hN : 0 < cl.length) : WellFormed r.lb := by
  refine ⟨by rw [h.flen, h.clients], by rw [h.clients]; exact hN, ?_, ?_⟩
  · rw [h.cur]; exact Int.ofNat_nonneg _
  · rw [h.cur, h.clients]; exact_mod_cast Nat.mod_lt _ hN

/-- A call of `Get` from cursor `k` in which the indices at offsets below `d`
report unhealthy and the one at offset `d` reports healthy returns the latter. -/
theorem Get_served (env : Env) (r : Run) (k d : Nat)
    (hwf : WellFormed r.lb) (hk : r.lb.currentIndex = (k : Int))
    (hd : d < r.lb.clients.length)
    (hbad : ∀ m, m < d → ∀ p c,
      r.lb.clients[(k + m) % r.lb.clients.length]? = some c → env.IsOnline p c = false)
    (hgood : ∀ p c,
      r.lb.clients[(k + d) % r.lb.clients.length]? = some c → env.IsOnline p c = true)
    (fuel : Nat) (hfuel : d < fuel) :
    ∃ o r', Get env fuel r = some (o, r') ∧ Served r.lb.clients k r.iters d o r' := by
  obtain ⟨hlt, hat⟩ := At.start hwf hk
  unfold Get
  rw [hk]
  exact loop_first_healthy env r.lb.clients k d r.iters hlt hd hbad hgood fuel r 0
    (Nat.zero_le _) hat (by omega)

/-- Every index of the pool is at some offset below `n` from the cursor. -/
theorem offset_exists (k i n : Nat) (hi : i < n) (hk : k < n) :
    ∃ d, d < n ∧ (k + d) % n = i := by
  by_cases h : k ≤ i
  · exact ⟨i - k, by omega, by rw [Nat.add_sub_cancel' h, Nat.mod_eq_of_lt hi]⟩
  · refine ⟨i + n - k, by omega, ?_⟩
    have : k + (i + n - k) = i + n := by omega
    rw [this, Nat.add_mod_right, Nat.mod_eq_of_lt hi]

/-- C1: on a well-formed pool whose cursor is `k`, when the answer of `IsOnline`
depends on the endpoint only (`healthy`) and some endpoint is healthy, there is
a least offset `d < N` whose endpoint `(k + d) mod N` is healthy, and `Get`,
with fuel for one sweep, returns that index with the client stored there and
a nil error, whatever the failure timestamps are. -/
theorem Get_returns_first_healthy (env : Env) (healthy : Client → Bool) (r : Run) (k : Nat)
    (hwf : WellFormed r.lb) (hk : r.lb.currentIndex = (k : Int))
    (hfix : ∀ p c, env.IsOnline p c = healthy c)
    (hsome : ∃ c, c ∈ r.lb.clients ∧ healthy c = true) :
    ∃ d c, d < r.lb.clients.length ∧
      r.lb.clients[(k + d) % r.lb.clients.length]? = some c ∧ healthy c = true ∧
      (∀ d' c', d' < d →
        r.lb.clients[(k + d') % r.lb.clients.length]? = some c' → healthy c' = false) ∧
      ∀ fuel, r.lb.clients.length ≤ fuel →
        ∃ r', Get env fuel r =
          some (.ret (((k + d) % r.lb.clients.length : Nat) : Int) (some c) none, r') := by
  classical
  obtain ⟨hlt, -⟩ := At.start hwf hk
  let P : Nat → Prop := fun d => d < r.lb.clients.length ∧
    ∃ c, r.lb.clients[(k + d) % r.lb.clients.length]? = some c ∧ healthy c = true
  have hex : ∃ d, P d := by
    obtain ⟨c, hc, hh⟩ := hsome
    obtain ⟨i, hi, hic⟩ := List.getElem_of_mem hc
    obtain ⟨d, hd, hdi⟩ := offset_exists k i _ hi hlt
    refine ⟨d, hd, c, ?_, hh⟩
    rw [hdi, List.getElem?_eq_getElem hi, hic]
  obtain ⟨hd, c, hc, hh⟩ := Nat.find_spec hex
  have hmin : ∀ d' c', d' < Nat.find hex →
      r.lb.clients[(k + d') % r.lb.clients.length]? = some c' → healthy c' = false := by
    intro d' c' hd' hc'
    have hnot := Nat.find_min hex hd'
    by_contra hne
    exact hnot ⟨by omega, c', hc', by simpa using hne⟩
  refine ⟨Nat.find hex, c, hd, hc, hh, hmin, ?_⟩
  intro fuel hfuel
  obtain ⟨o, r', hget, hserved⟩ := Get_served env r k (Nat.find hex) hwf hk hd
    (fun m hm p c' hc' => by rw [hfix]; exact hmin m c' hm hc')
    (fun p c' hc' => by
      rw [hfix]
      rw [hc] at hc'
      injection hc' with e
      rw [← e]; exact hh)
    fuel (by omega)
  obtain ⟨c', hc', ho⟩ := hserved.out
  rw [hc] at hc'
  injection hc' with e
  subst e
  exact ⟨r', by rw [hget, ho]; rfl⟩

theorem Get_returns_first_healthy_witness :
    ∃ d c, d < (start poolC1).lb.clients.length ∧
      (start poolC1).lb.clients[(1 + d) % (start poolC1).lb.clients.length]? = some c ∧
      (fun c : Client => c.addr == 12) c = true ∧
      (∀ d' c', d' < d →
        (start poolC1).lb.clients[(1 + d') % (start poolC1).lb.clients.length]? = some c' →
          (fun c : Client => c.addr == 12) c' = false) ∧
      ∀ fuel, (start poolC1).lb.clients.length ≤ fuel →
        ∃ r', Get envC1 fuel (start poolC1) =
          some (.ret (((1 + d) % (start poolC1).lb.clients.length : Nat) : Int) (some c) none, r') :=
  Get_returns_first_healthy envC1 (fun c => c.addr == 12) (start poolC1) 1
    (by decide) rfl (fun _ _ => rfl) ⟨⟨12⟩, by decide, rfl⟩

/-! ## Round robin over healthy endpoints -/

/-- The cyclic order from `k` visits every index of the pool exactly once. -/
theorem cyclic_perm (k n : Nat) (hk : k < n) :
    ((List.range n).map (fun j => (k + j) % n)).Perm (List.range n) := by
  have hnd : ((List.range n).map (fun j => (k + j) % n)).Nodup := by
    apply List.Nodup.map_on _ (List.nodup_range n)
    intro x hx y hy hxy
    have hx' : x < n := List.mem_range.mp hx
    have hy' : y < n := List.mem_range.mp hy
    have h2 : x % n = y % n := Nat.ModEq.add_left_cancel' k hxy
    rwa [Nat.mod_eq_of_lt hx', Nat.mod_eq_of_lt hy'] at h2
  rw [List.perm_ext_iff_of_nodup hnd (List.nodup_range n)]
  intro i
  simp only [List.mem_map, List.mem_range]
  constructor
  · rintro ⟨j, _, rfl⟩
    exact Nat.mod_lt _ (by omega)
  · intro hi
    obtain ⟨d, hd, hdi⟩ := offset_exists k i n hi hk
    exact ⟨d, hd, hdi⟩

/-- While every probe reports healthy, `n` consecutive calls return the `n`
indices that follow the cursor in cyclic order. -/
theorem GetMany_all_healthy (env : Env) (hall : ∀ p c, env.IsOnline p c = true)
    (fuel : Nat) (hfuel : 1 ≤ fuel) (cl : List Client) :
    ∀ (n : Nat) (r : Run) (k : Nat), WellFormed r.lb → r.lb.clients = cl →
      r.lb.currentIndex = (k : Int) →
      ∃ r', GetMany env fuel n r =
        some ((List.range n).map (fun j =>
          Outcome.ret (((k + j) % cl.length : Nat) : Int) (cl[(k + j) % cl.length]?) none), r') := by
  intro n
  induction n with
  | zero => intro r k _ _ _; exact ⟨r, rfl⟩
  | succ n ih =>
    intro r k hwf hcl hk
    have hN : 0 < cl.length := by rw [← hcl]; exact hwf.2.1
    obtain ⟨o, r1, hget, hserved⟩ := Get_served env r k 0 hwf hk hwf.2.1
      (fun m hm => absurd hm (Nat.not_lt_zero m)) (fun p c _ => hall p c) fuel (by omega)
    rw [hcl] at hserved
    obtain ⟨c, hc, ho⟩ := hserved.out
    obtain ⟨r2, hmany⟩ := ih r1 ((k + 1) % cl.length) (hserved.after.wellFormed hN)
      hserved.after.clients (by rw [hserved.after.cur])
    refine ⟨r2, ?_⟩
    unfold GetMany
    rw [hget]
    simp only [hmany, List.range_succ_eq_map, List.map_cons, List.map_map]
    rw [hc]
    have hfun : ((fun j => Outcome.ret (((k + j) % cl.length : Nat) : Int)
          (cl[(k + j) % cl.length]?) none) ∘ Nat.succ) =
        (fun j => Outcome.ret ((((k + 1) % cl.length + j) % cl.length : Nat) : Int)
          (cl[((k + 1) % cl.length + j) % cl.length]?) none) := by
      funext j
      have : ((k + 1) % cl.length + j) % cl.length = (k + (j + 1)) % cl.length := by
        rw [Nat.add_mod, Nat.mod_mod, ← Nat.add_mod]
        congr 1
        omega
      simp only [Function.comp, Nat.succ_eq_add_one, this]
    rw [hfun, ho]
    rfl

/-- C2: on a well-formed pool of `N` endpoints (any `N ≥ 1`) with cursor `k`
in which every probe reports healthy, consecutive calls of `Get` all succeed:
call number `j` returns the index `(k + j) mod N`, the client stored at that
index and a nil error, for any number `n` of calls (so for `N` of them); over
`N` calls these indices are `0, ..., N-1`, each exactly once. -/
theorem GetMany_round_robin (env : Env) (r : Run) (k : Nat)
    (hwf : WellFormed r.lb) (hk : r.lb.currentIndex = (k : Int))
    (hall : ∀ p c, env.IsOnline p c = true) (fuel : Nat) (hfuel : 1 ≤ fuel) :
    (∀ n, ∃ r', GetMany env fuel n r =
      some ((List.range n).map (fun j =>
        Outcome.ret (((k + j) % r.lb.clients.length : Nat) : Int)
          (r.lb.clients[(k + j) % r.lb.clients.length]?) none), r')) ∧
    (∀ j, ∃ c, r.lb.clients[(k + j) % r.lb.clients.length]? = some c) ∧
    ((List.range r.lb.clients.length).map
      (fun j => (k + j) % r.lb.clients.length)).Perm (List.range r.lb.clients.length) := by
  obtain ⟨hlt, -⟩ := At.start hwf hk
  refine ⟨fun n => GetMany_all_healthy env hall fuel hfuel r.lb.clients n r k hwf rfl hk, ?_,
    cyclic_perm k _ hlt⟩
  intro j
  exact ⟨_, List.getElem?_eq_getElem (Nat.mod_lt _ (by omega))⟩

theorem GetMany_round_robin_witness :
    WellFormed poolC2 ∧
    ∃ r', GetMany envC2 1 4 (start poolC2) =
      some ([.ret 0 (some ⟨10⟩) none, .ret 1 (some ⟨11⟩) none, .ret 2 (some ⟨12⟩) none,
        .ret 0 (some ⟨10⟩) none], r') :=
  ⟨by decide,
    (GetMany_round_robin envC2 (start poolC2) 0 (by decide) rfl
      (fun _ _ => rfl) 1 (Nat.le_refl 1)).1 4⟩

/-! ## Exhaustion -/

theorem MarkedUpTo.set {n k m : Nat} {fs : List Time} (h : MarkedUpTo n k m fs)
    (v : Time) (hv : v ≠ zeroTime) : MarkedUpTo n k (m + 1) (fs.set ((k + m) % n) v) := by
  intro j hj f hf
  rw [List.getElem?_set] at hf
  split_ifs at hf with h1 h2
  · injection hf with e
    rw [← e]; exact hv
  · have hjm : j ≠ m := fun e => h1 (by rw [e])
    exact h j (by omega) f hf

theorem MarkedUpTo.keep {n k m : Nat} {fs : List Time} (h : MarkedUpTo n k m fs)
    (f : Time) (hf : fs[(k + m) % n]? = some f) (hz : f ≠ zeroTime) :
    MarkedUpTo n k (m + 1) fs := by
  intro j hj g hg
  by_cases hjm : j = m
  · subst hjm
    rw [hf] at hg
    injection hg with e
    rw [← e]; exact hz
  · exact h j (by omega) g hg

theorem MarkedUpTo.second_sweep {n k m : Nat} {fs : List Time} (h : MarkedUpTo n k m fs)
    (hn : 0 < n) (hm : n ≤ m) (f : Time) (hf : fs[(k + m) % n]? = some f) : f ≠ zeroTime := by
  have e : (k + m) % n = (k + (m - n)) % n := by
    have : k + m = k + (m - n) + n := by omega
    rw [this, Nat.add_mod_right]
  rw [e] at hf
  exact h (m - n) (by omega) f hf

theorem mod_succ_lt_two (m n : Nat) (h : m < 2 * n) (hm : (m + 1) % n ≠ 0) : m + 1 < 2 * n := by
  rcases Nat.lt_or_ge (m + 1) (2 * n) with h1 | h1
  · exact h1
  · exfalso
    apply hm
    have : m + 1 = n * 2 := by omega
    rw [this, Nat.mul_mod_right]

/-- When no probe reports healthy and the clock never reads the zero time, the
loop ends with the failure result within two sweeps. -/
theorem loop_all_unhealthy (env : Env) (cl : List Client) (k it0 p0 q0 : Nat)
    (hk : k < cl.length)
    (hdown : ∀ p c, p0 ≤ p → env.IsOnline p c = false)
    (hclock : ∀ q, q0 ≤ q → env.Now q ≠ zeroTime)
    (fuel : Nat) (r : Run) (hr : At cl k it0 0 r) (hp : p0 ≤ r.nprobe) (hq : q0 ≤ r.nclock)
    (hfuel : 2 * cl.length ≤ fuel) :
    ∃ r', loop env (k : Int) fuel r = some (failure, r') := by
  have key : ∀ r m, m < 2 * cl.length → At cl k it0 m r → p0 ≤ r.nprobe → q0 ≤ r.nclock →
      MarkedUpTo cl.length k m r.lb.failures → ∀ st, Iter env cl k m r st →
      (∀ o r', st = .done o r' → o = failure) ∧
      (∀ r', st = .next r' → m + 1 < 2 * cl.length ∧ At cl k it0 (m + 1) r' ∧
        p0 ≤ r'.nprobe ∧ q0 ≤ r'.nclock ∧ MarkedUpTo cl.length k (m + 1) r'.lb.failures) := by
    intro r m hm hr hp hq hmk st hst
    have hset : ∀ t, (r.lb.failures.set ((k + m) % cl.length) t).length = cl.length := by
      intro t; rw [List.length_set, hr.flen]
    have hup : ∀ p c, env.IsOnline p c = true → p0 ≤ p → False := by
      intro p c h1 hle
      rw [hdown p c hle] at h1
      exact Bool.noConfusion h1
    cases hst with
    | healthy c hc h1 => exact (hup _ c h1 hp).elim
    | marked c hc hf h1 =>
      refine ⟨fun o r' e => Step.noConfusion e, ?_⟩
      intro r' e
      injection e with e1
      subst e1
      have hlt : m < cl.length := by
        by_contra hge
        exact hmk.second_sweep (by omega) (by omega) 0 hf rfl
      exact ⟨by omega, hr.advance _ (hset _) _ _ _, Nat.le_succ_of_le hp, Nat.le_succ_of_le hq,
        hmk.set _ (hclock _ hq)⟩
    | revived c f hc hf h1 hz hold h2 => exact (hup _ c h2 (by omega)).elim
    | refreshedExit c f hc hf h1 hz hold h2 hm' =>
      refine ⟨?_, fun r' e => Step.noConfusion e⟩
      intro o r' e
      injection e with e1 e2
      exact e1.symm
    | refreshedNext c f hc hf h1 hz hold h2 hm' =>
      refine ⟨fun o r' e => Step.noConfusion e, ?_⟩
      intro r' e
      injection e with e1
      subst e1
      exact ⟨mod_succ_lt_two m _ hm hm', hr.advance _ (hset _) _ _ _,
        Nat.le_trans hp (Nat.le_add_right _ _), Nat.le_trans hq (Nat.le_add_right _ _),
        hmk.set _ (hclock _ (by omega))⟩
    | coolingExit c f hc hf h1 hz hnew hm' =>
      refine ⟨?_, fun r' e => Step.noConfusion e⟩
      intro o r' e
      injection e with e1 e2
      exact e1.symm
    | coolingNext c f hc hf h1 hz hnew hm' =>
      refine ⟨fun o r' e => Step.noConfusion e, ?_⟩
      intro r' e
      injection e with e1
      subst e1
      exact ⟨mod_succ_lt_two m _ hm hm', hr.advance _ hr.flen _ _ _,
        Nat.le_succ_of_le hp, Nat.le_succ_of_le hq, hmk.keep f hf hz⟩
  obtain ⟨o, r', hloop, ho⟩ := loop_total env (k : Int)
    (fun r => ∃ m, m < 2 * cl.length ∧ At cl k it0 m r ∧ p0 ≤ r.nprobe ∧ q0 ≤ r.nclock ∧
      MarkedUpTo cl.length k m r.lb.failures)
    (fun o _ => o = failure) (fun r => it0 + 2 * cl.length - 1 - r.iters)
    (by
      rintro r o r' ⟨m, hm, hr, hp, hq, hmk⟩ hb
      exact (key r m hm hr hp hq hmk _ (hr.step hk env)).1 o r' hb)
    (by
      rintro r r' ⟨m, hm, hr, hp, hq, hmk⟩ hb
      obtain ⟨h1, h2, h3, h4, h5⟩ := (key r m hm hr hp hq hmk _ (hr.step hk env)).2 r' hb
      exact ⟨⟨m + 1, h1, h2, h3, h4, h5⟩, by simp only [h2.iters, hr.iters]; omega⟩)
    fuel r ⟨0, by omega, hr, hp, hq, fun j hj => absurd hj (Nat.not_lt_zero j)⟩
    (by simp only [hr.iters]; omega)
  subst ho
  exact ⟨r', hloop⟩

/-- C3: on a well-formed pool, whatever the failure timestamps, when every
probe made from the call on reports unhealthy and no clock reading from the
call on is the zero time, `Get`, with fuel for two sweeps, returns
`(-1, nil, "no servers available")`. -/
theorem Get_all_unhealthy (env : Env) (r : Run) (k : Nat)
    (hwf : WellFormed r.lb) (hk : r.lb.currentIndex = (k : Int))
    (hdown : ∀ p c, r.nprobe ≤ p → env.IsOnline p c = false)
    (hclock : ∀ q, r.nclock ≤ q → env.Now q ≠ zeroTime)
    (fuel : Nat) (hfuel : 2 * r.lb.clients.length ≤ fuel) :
    ∃ r', Get env fuel r = some (.ret (-1) none (some "no servers available"), r') := by
  obtain ⟨hlt, hat⟩ := At.start hwf hk
  unfold Get
  rw [hk]
  exact loop_all_unhealthy env r.lb.clients k r.iters r.nprobe r.nclock hlt hdown hclock fuel r
    hat (Nat.le_refl _) (Nat.le_refl _) hfuel

theorem Get_all_unhealthy_witness :
    ∃ r', Get envC3 2 (start poolC3) =
      some (.ret (-1) none (some "no servers available"), r') :=
  Get_all_unhealthy envC3 (start poolC3) 0 (by decide) rfl (fun _ _ _ => rfl)
    (fun q _ => by show (100 + (q : Int)) ≠ 0; omega) 2 (Nat.le_refl 2)

/-! ## One unhealthy endpoint -/

theorem succ_mod_ne (k n : Nat) (hn : 2 ≤ n) (hk : k < n) : (k + 1) % n ≠ k := by
  rcases Nat.lt_or_ge (k + 1) n with h | h
  · rw [Nat.mod_eq_of_lt h]; omega
  · have : k + 1 = n := by omega
    rw [this, Nat.mod_self]; omega

/-- One call of `Get` on a pool whose only unhealthy endpoint is at index
`bad` succeeds with another index and leaves the pool well-formed. -/
theorem Get_one_unhealthy (env : Env) (cl : List Client) (bad : Nat)
    (hN : 2 ≤ cl.length)
    (hdown : ∀ p c, cl[bad]? = some c → env.IsOnline p c = false)
    (hup : ∀ p i c, i ≠ bad → cl[i]? = some c → env.IsOnline p c = true)
    (fuel : Nat) (hfuel : 2 ≤ fuel) (r : Run)
    (hwf : WellFormed r.lb) (hcl : r.lb.clients = cl) :
    ∃ i c r', Get env fuel r = some (success ((i : Nat) : Int) c, r') ∧ i ≠ bad ∧
      cl[i]? = some c ∧ WellFormed r'.lb ∧ r'.lb.clients = cl := by
  obtain ⟨_, _, h0, hlt⟩ := id hwf
  obtain ⟨k, hk⟩ := Int.eq_ofNat_of_zero_le h0
  obtain ⟨hkN, -⟩ := At.start hwf hk
  rw [hcl] at hkN
  have hpos : 0 < cl.length := by omega
  by_cases hkb : k = bad
  · obtain ⟨o, r', hget, hs⟩ := Get_served env r k 1 hwf hk (by rw [hcl]; omega)
      (fun m hm p c hc => by
        have hm0 : m = 0 := by omega
        subst hm0
        rw [hcl, Nat.add_zero, Nat.mod_eq_of_lt hkN, hkb] at hc
        exact hdown p c hc)
      (fun p c hc => by
        rw [hcl] at hc
        exact hup p _ c (by rw [← hkb]; exact succ_mod_ne k _ hN hkN) hc)
      fuel (by omega)
    rw [hcl] at hs
    obtain ⟨c, hc, ho⟩ := hs.out
    exact ⟨_, c, r', by rw [hget, ho], by rw [← hkb]; exact succ_mod_ne k _ hN hkN, hc,
      hs.after.wellFormed hpos, hs.after.clients⟩
  · obtain ⟨o, r', hget, hs⟩ := Get_served env r k 0 hwf hk (by rw [hcl]; omega)
      (fun m hm => absurd hm (Nat.not_lt_zero m))
      (fun p c hc => by
        rw [hcl, Nat.add_zero, Nat.mod_eq_of_lt hkN] at hc
        exact hup p k c hkb hc)
      fuel (by omega)
    rw [hcl] at hs
    obtain ⟨c, hc, ho⟩ := hs.out
    rw [Nat.add_zero, Nat.mod_eq_of_lt hkN] at hc ho
    exact ⟨k, c, r', by rw [hget, ho], hkb, hc, hs.after.wellFormed hpos, hs.after.clients⟩

/-- C4: on a well-formed pool of `N ≥ 2` endpoints in which the endpoint at
index `bad` reports unhealthy on every probe and every other endpoint reports
healthy, any number `n` of repeated calls of `Get` all succeed, and none of
them returns `bad`: each returns an index `i ≠ bad` of the pool with the
client stored there and a nil error.  So `bad` is not returned before ten
minutes have elapsed since it was first seen unhealthy, nor after. -/
theorem GetMany_one_unhealthy (env : Env) (r : Run) (bad : Nat)
    (hwf : WellFormed r.lb) (hN : 2 ≤ r.lb.clients.length)
    (hdown : ∀ p c, r.lb.clients[bad]? = some c → env.IsOnline p c = false)
    (hup : ∀ p i c, i ≠ bad → r.lb.clients[i]? = some c → env.IsOnline p c = true)
    (fuel : Nat) (hfuel : 2 ≤ fuel) (n : Nat) :
    ∃ os r', GetMany env fuel n r = some (os, r') ∧ os.length = n ∧
      ∀ o, o ∈ os → ∃ (i : Nat) (c : Client),
        o = .ret (i : Int) (some c) none ∧ i ≠ bad ∧ r.lb.clients[i]? = some c := by
  have main : ∀ (n : Nat) (r' : Run), WellFormed r'.lb → r'.lb.clients = r.lb.clients →
      ∃ os r'', GetMany env fuel n r' = some (os, r'') ∧ os.length = n ∧
        ∀ o, o ∈ os → ∃ (i : Nat) (c : Client),
          o = .ret (i : Int) (some c) none ∧ i ≠ bad ∧ r.lb.clients[i]? = some c := by
    intro n
    induction n with
    | zero =>
      intro r' _ _
      exact ⟨[], r', rfl, rfl, fun o ho => absurd ho (List.not_mem_nil o)⟩
    | succ n ih =>
      intro r' hwf' hcl'
      obtain ⟨i, c, r1, hget, hi, hc, hwf1, hcl1⟩ :=
        Get_one_unhealthy env r.lb.clients bad hN hdown hup fuel hfuel r' hwf' hcl'
      obtain ⟨os, r2, hmany, hlen, hall⟩ := ih r1 hwf1 hcl1
      refine ⟨success (i : Int) c :: os, r2, ?_, by rw [List.length_cons, hlen], ?_⟩
      · unfold GetMany
        rw [hget]
        simp only [hmany]
      · intro o ho
        rcases List.mem_cons.mp ho with e | ho'
        · exact ⟨i, c, e, hi, hc⟩
        · exact hall o ho'
  exact main n r hwf rfl

theorem GetMany_one_unhealthy_witness :
    ∃ os r', GetMany envC4 2 5 (start poolC4) = some (os, r') ∧ os.length = 5 ∧
      ∀ o, o ∈ os → ∃ (i : Nat) (c : Client),
        o = .ret (i : Int) (some c) none ∧ i ≠ 1 ∧ (start poolC4).lb.clients[i]? = some c :=
  GetMany_one_unhealthy envC4 (start poolC4) 1 (by decide) (by decide)
    (fun _ c hc => by
      have e : c = ⟨11⟩ := by
        have : (start poolC4).lb.clients[1]? = some (⟨11⟩ : Client) := rfl
        rw [this] at hc
        injection hc with e
        exact e.symm
      subst e
      rfl)
    (fun _ i c hi hc => by
      have h3 : i < 3 := (List.getElem?_eq_some_iff.mp hc).1
      have hcases : i = 0 ∨ i = 2 := by omega
      rcases hcases with e | e <;> subst e
      · have : (start poolC4).lb.clients[0]? = some (⟨10⟩ : Client) := rfl
        rw [this] at hc
        injection hc with e
        subst e
        rfl
      · have : (start poolC4).lb.clients[2]? = some (⟨12⟩ : Client) := rfl
        rw [this] at hc
        injection hc with e
        subst e
        rfl)
    2 (Nat.le_refl 2) 5

/-! ## The shape of the results -/

theorem loop_shape (env : Env) (cl : List Client) (k it0 : Nat) (log0 : List (Nat × Bool))
    (hk : k < cl.length) (fuel : Nat) (r : Run) (o : Outcome) (r' : Run)
    (hr : At cl k it0 0 r) (hlog : r.probes = log0)
    (hloop : loop env (k : Int) fuel r = some (o, r')) : Shape cl log0 o r' := by
  have hN : 0 < cl.length := by omega
  have key : ∀ r m, At cl k it0 m r → (∃ earlier, r.probes = earlier ++ log0) →
      ∀ st, Iter env cl k m r st →
      (∀ o r', st = .done o r' → Shape cl log0 o r') ∧
      (∀ r', st = .next r' → At cl k it0 (m + 1) r' ∧ ∃ earlier, r'.probes = earlier ++ log0) := by
    intro r m hr hlog st hst
    obtain ⟨earlier, hlog⟩ := hlog
    have hset : ∀ t, (r.lb.failures.set ((k + m) % cl.length) t).length = cl.length := by
      intro t; rw [List.length_set, hr.flen]
    have hi : (k + m) % cl.length < cl.length := Nat.mod_lt _ hN
    have hext : ∀ fs dp dc (log : List (Nat × Bool)),
        ∃ e, (after r ((k + m) % cl.length) fs dp dc log).probes = e ++ log0 := by
      intro fs dp dc log
      exact ⟨log ++ earlier, by show log ++ r.probes = _; rw [hlog, List.append_assoc]⟩
    cases hst with
    | healthy c hc h1 =>
      refine ⟨?_, fun r' e => Step.noConfusion e⟩
      intro o r' e
      injection e with e1 e2
      subst e1 e2
      exact Or.inr ⟨_, c, earlier, hi, hc, rfl, by
        show [((k + m) % cl.length, true)] ++ r.probes = _
        rw [hlog]; rfl⟩
    | marked c hc hf h1 =>
      refine ⟨fun o r' e => Step.noConfusion e, ?_⟩
      intro r' e
      injection e with e1
      subst e1
      exact ⟨hr.advance _ (hset _) _ _ _, hext _ _ _ _⟩
    | revived c f hc hf h1 hz hold h2 =>
      refine ⟨?_, fun r' e => Step.noConfusion e⟩
      intro o r' e
      injection e with e1 e2
      subst e1 e2
      exact Or.inr ⟨_, c, ((k + m) % cl.length, false) :: earlier, hi, hc, rfl, by
        show [((k + m) % cl.length, true), ((k + m) % cl.length, false)] ++ r.probes = _
        rw [hlog]; rfl⟩
    | refreshedExit c f hc hf h1 hz hold h2 hm' =>
      refine ⟨?_, fun r' e => Step.noConfusion e⟩
      intro o r' e
      injection e with e1 e2
      exact Or.inl e1.symm
    | refreshedNext c f hc hf h1 hz hold h2 hm' =>
      refine ⟨fun o r' e => Step.noConfusion e, ?_⟩
      intro r' e
      injection e with e1
      subst e1
      exact ⟨hr.advance _ (hset _) _ _ _, hext _ _ _ _⟩
    | coolingExit c f hc hf h1 hz hnew hm' =>
      refine ⟨?_, fun r' e => Step.noConfusion e⟩
      intro o r' e
      injection e with e1 e2
      exact Or.inl e1.symm
    | coolingNext c f hc hf h1 hz hnew hm' =>
      refine ⟨fun o r' e => Step.noConfusion e, ?_⟩
      intro r' e
      injection e with e1
      subst e1
      exact ⟨hr.advance _ hr.flen _ _ _, hext _ _ _ _⟩
  exact loop_partial env (k : Int)
    (fun r => ∃ m, At cl k it0 m r ∧ ∃ earlier, r.probes = earlier ++ log0)
    (Shape cl log0)
    (by
      rintro r o r' ⟨m, hr, hl⟩ hb
      exact (key r m hr hl _ (hr.step hk env)).1 o r' hb)
    (by
      rintro r r' ⟨m, hr, hl⟩ hb
      exact ⟨m + 1, (key r m hr hl _ (hr.step hk env)).2 r' hb⟩)
    fuel r o r' ⟨0, hr, [], by rw [hlog]; rfl⟩ hloop

/-- C5: on a well-formed pool, for every health oracle and clock, whenever
`Get` returns its three results `(idx, client, err)`: if `err` is nil then
`idx` is an index `i` with `0 ≤ i < N`, `client` is `clients[i]`, and the last
probe the call made was on index `i` and reported healthy; if `err` is not nil
then `idx = -1` and `client` is nil. -/
theorem Get_result_shape (env : Env) (r : Run) (fuel : Nat)
    (idx : Int) (client : Option Client) (err : Option String) (r' : Run)
    (hwf : WellFormed r.lb)
    (hget : Get env fuel r = some (.ret idx client err, r')) :
    (err = none →
      ∃ (i : Nat) (c : Client) (earlier : List (Nat × Bool)),
        idx = (i : Int) ∧ i < r.lb.clients.length ∧
        r.lb.clients[i]? = some c ∧ client = some c ∧
        r'.probes = (i, true) :: (earlier ++ r.probes)) ∧
    (err ≠ none → idx = -1 ∧ client = none) := by
  obtain ⟨_, _, h0, _⟩ := id hwf
  obtain ⟨k, hk⟩ := Int.eq_ofNat_of_zero_le h0
  obtain ⟨hlt, hat⟩ := At.start hwf hk
  unfold Get at hget
  rw [hk] at hget
  rcases loop_shape env r.lb.clients k r.iters r.probes hlt fuel r _ r' hat rfl hget with h | h
  · injection h with e1 e2 e3
    subst e1 e2 e3
    exact ⟨fun e => Option.noConfusion e, fun _ => ⟨rfl, rfl⟩⟩
  · obtain ⟨i, c, earlier, hi, hc, ho, hp⟩ := h
    injection ho with e1 e2 e3
    subst e1 e2 e3
    exact ⟨fun _ => ⟨i, c, earlier, rfl, hi, hc, rfl, hp⟩, fun e => absurd rfl e⟩

theorem Get_result_shape_witness :
    Get envC5 9 (start poolC5) = some (.ret 1 (some ⟨11⟩) none, afterC5) ∧
    ((none : Option String) = none →
      ∃ (i : Nat) (c : Client) (earlier : List (Nat × Bool)),
        (1 : Int) = (i : Int) ∧ i < (start poolC5).lb.clients.length ∧
        (start poolC5).lb.clients[i]? = some c ∧ some (⟨11⟩ : Client) = some c ∧
        afterC5.probes = (i, true) :: (earlier ++ (start poolC5).probes)) ∧
    ((none : Option String) ≠ none → (1 : Int) = -1 ∧ some (⟨11⟩ : Client) = none) :=
  ⟨by decide,
    Get_result_shape envC5 (start poolC5) 9 1 (some ⟨11⟩) none afterC5 (by decide) (by decide)⟩

/-! ## Re-probe after the cool-down -/

/-- The test of line 70 on the saturated duration is the test on the elapsed time. -/
theorem ten_minutes_le_Sub (t u : Time) : 10 * Minute ≤ Sub t u ↔ 10 * Minute ≤ t - u := by
  have h : ∀ d : Int,
      (10 * 60000000000 ≤ (if d > 9223372036854775807 then 9223372036854775807
        else if d < -9223372036854775808 then -9223372036854775808 else d) ↔
        10 * 60000000000 ≤ d) := by
    intro d; split_ifs <;> omega
  exact h (t - u)

theorem getElem?_set_at (fs : List Time) (i : Nat) (f v : Time) (h : fs[i]? = some f) :
    (fs.set i v)[i]? = some v := by
  have hi : i < fs.length := (List.getElem?_eq_some_iff.mp h).1
  rw [List.getElem?_set, if_pos rfl, if_pos hi]

/-- C6: on a pool whose cursor is at index `k`, with client `c` and failure
timestamp `f` at that index (so `N ≥ 1`), if `f` is set, at least ten minutes have elapsed since `f` when the clock is
read, and `clients[k]` reports unhealthy on the first probe and healthy on the
re-probe, then `Get` returns `(k, clients[k], nil)` and leaves `failures[k]`
the zero time; and in any later state of that pool with these timestamps and
the cursor at `k`, an iteration that observes `k` unhealthy goes on to the next
iteration with `failures[k]` set to the clock reading of that later moment. -/
theorem Get_revives (env : Env) (r : Run) (k : Nat) (c : Client) (f : Time)
    (hk : r.lb.currentIndex = (k : Int))
    (hc : r.lb.clients[k]? = some c) (hf : r.lb.failures[k]? = some f)
    (hz : f ≠ zeroTime) (hold : 10 * Minute ≤ env.Now r.nclock - f)
    (h1 : env.IsOnline r.nprobe c = false) (h2 : env.IsOnline (r.nprobe + 1) c = true)
    (fuel : Nat) (hfuel : 1 ≤ fuel) :
    ∃ r', Get env fuel r = some (.ret (k : Int) (some c) none, r') ∧
      r'.lb.failures[k]? = some zeroTime ∧
      ∀ (env2 : Env) (startIdx : Int) (r2 : Run),
        r2.lb.clients = r'.lb.clients → r2.lb.failures = r'.lb.failures →
        r2.lb.currentIndex = (k : Int) → env2.IsOnline r2.nprobe c = false →
        ∃ r3, body env2 startIdx r2 = .next r3 ∧
          r3.lb.failures[k]? = some (env2.Now r2.nclock) := by
  obtain ⟨fuel', rfl⟩ : ∃ n, fuel = n + 1 := ⟨fuel - 1, by omega⟩
  have hb := body_eq env (k : Int) r k c f hk hc hf
  have hold' : 10 * Minute ≤ Sub (env.Now r.nclock) f := (ten_minutes_le_Sub _ _).mpr hold
  have hz' : ¬ f = 0 := hz
  unfold bodyAt at hb
  rw [if_neg (by rw [h1]; exact Bool.false_ne_true), if_neg hz', if_pos hold', if_pos h2] at hb
  refine ⟨after r k (r.lb.failures.set k zeroTime) 2 1 [(k, true), (k, false)], ?_,
    getElem?_set_at r.lb.failures k f zeroTime hf, ?_⟩
  · unfold Get loop
    rw [hk, hb]
    rfl
  · intro env2 startIdx r2 hcl hfs hcur hoff
    have hc2 : r2.lb.clients[k]? = some c := by rw [hcl]; exact hc
    have hf2 : r2.lb.failures[k]? = some 0 := by
      rw [hfs]; exact getElem?_set_at r.lb.failures k f zeroTime hf
    have hb2 := body_eq env2 startIdx r2 k c 0 hcur hc2 hf2
    unfold bodyAt at hb2
    rw [if_neg (by rw [hoff]; exact Bool.false_ne_true), if_pos rfl] at hb2
    exact ⟨_, hb2, getElem?_set_at r2.lb.failures k 0 _ hf2⟩

theorem Get_revives_witness :
    ∃ r', Get envC6 1 (start poolC6) = some (.ret 1 (some ⟨11⟩) none, r') ∧
      r'.lb.failures[1]? = some zeroTime ∧
      ∀ (env2 : Env) (startIdx : Int) (r2 : Run),
        r2.lb.clients = r'.lb.clients → r2.lb.failures = r'.lb.failures →
        r2.lb.currentIndex = ((1 : Nat) : Int) → env2.IsOnline r2.nprobe ⟨11⟩ = false →
        ∃ r3, body env2 startIdx r2 = .next r3 ∧
          r3.lb.failures[1]? = some (env2.Now r2.nclock) :=
  Get_revives envC6 (start poolC6) 1 ⟨11⟩ 5 rfl rfl rfl (by decide) (by decide)
    rfl rfl 1 (Nat.le_refl 1)

/-! ## The second sweep, and the stale timestamp -/

/-- C7 (what the code does at the failing input): on a fresh pool whose
endpoints all report unhealthy, the first call of `Get` does not stop after
one sweep.  With `N = 1` one iteration does not end the loop; the error comes
after two iterations, index 0 having been probed twice.  With `N = 3` five
iterations do not end the loop; the error comes after six, every index having
been probed twice. -/
theorem Get_fresh_all_unhealthy_sweeps_twice :
    Get envC7 1 (start poolC7) = none ∧
    Get envC7 2 (start poolC7) = some (failure, afterC7) ∧
    Get envC7 5 (start poolC7three) = none ∧
    Get envC7 6 (start poolC7three) = some (failure, afterC7three) := by
  decide

/-- C9 (what the code does at the failing input): on a fresh pool of two
endpoints, the first call sees index 0 unhealthy, records the failure time
`100` and returns index 1; the second call sees index 0 healthy on the direct
check and returns it with a nil error, and `failures[0]` is still `100`, not
the zero time. -/
theorem Get_direct_success_keeps_timestamp :
    GetMany envC9 2 2 (start poolC9) =
      some ([.ret 1 (some ⟨11⟩) none, .ret 0 (some ⟨10⟩) none], afterC9) ∧
    afterC9.lb.failures[0]? = some 100 ∧ (100 : Time) ≠ zeroTime := by
  decide

/-! ## Two calls in a row -/

theorem loop_traced (env : Env) (cl : List Client) (k it0 : Nat) (log0 : List (Nat × Bool))
    (hk : k < cl.length) (fuel : Nat) (r : Run) (o : Outcome) (r' : Run)
    (hr : At cl k it0 0 r) (hlog : r.probes = log0)
    (hloop : loop env (k : Int) fuel r = some (o, r')) : Traced cl k it0 log0 o r' := by
  have key : ∀ r m, At cl k it0 m r →
      (∃ new, r.probes = new ++ log0 ∧ ∀ j, j < m → ((k + j) % cl.length, false) ∈ new) →
      ∀ st, Iter env cl k m r st →
      (∀ o r', st = .done o r' → Traced cl k it0 log0 o r') ∧
      (∀ r', st = .next r' → At cl k it0 (m + 1) r' ∧
        ∃ new, r'.probes = new ++ log0 ∧
          ∀ j, j < m + 1 → ((k + j) % cl.length, false) ∈ new) := by
    intro r m hr hlog st hst
    obtain ⟨new, hnew, hmem⟩ := hlog
    have hset : ∀ t, (r.lb.failures.set ((k + m) % cl.length) t).length = cl.length := by
      intro t; rw [List.length_set, hr.flen]
    have hdone : ∀ fs dp dc (log : List (Nat × Bool)),
        ∃ new', (after r ((k + m) % cl.length) fs dp dc log).probes = new' ++ log0 ∧
          ∀ j, j < m → ((k + j) % cl.length, false) ∈ new' := by
      intro fs dp dc log
      refine ⟨log ++ new, by show log ++ r.probes = _; rw [hnew, List.append_assoc], ?_⟩
      intro j hj
      exact List.mem_append_right _ (hmem j hj)
    have hnext : ∀ fs dp dc (log : List (Nat × Bool)), ((k + m) % cl.length, false) ∈ log →
        ∃ new', (after r ((k + m) % cl.length) fs dp dc log).probes = new' ++ log0 ∧
          ∀ j, j < m + 1 → ((k + j) % cl.length, false) ∈ new' := by
      intro fs dp dc log hin
      refine ⟨log ++ new, by show log ++ r.probes = _; rw [hnew, List.append_assoc], ?_⟩
      intro j hj
      by_cases hjm : j = m
      · subst hjm
        exact List.mem_append_left _ hin
      · exact List.mem_append_right _ (hmem j (by omega))
    cases hst with
    | healthy c hc h1 =>
      refine ⟨?_, fun r' e => Step.noConfusion e⟩
      intro o r' e
      injection e with e1 e2
      subst e1 e2
      exact ⟨m, hr.advance _ hr.flen _ _ _, hdone _ _ _ _, Or.inr ⟨c, hc, rfl⟩⟩
    | marked c hc hf h1 =>
      refine ⟨fun o r' e => Step.noConfusion e, ?_⟩
      intro r' e
      injection e with e1
      subst e1
      exact ⟨hr.advance _ (hset _) _ _ _, hnext _ _ _ _ (List.mem_cons_self _ _)⟩
    | revived c f hc hf h1 hz hold h2 =>
      refine ⟨?_, fun r' e => Step.noConfusion e⟩
      intro o r' e
      injection e with e1 e2
      subst e1 e2
      exact ⟨m, hr.advance _ (hset _) _ _ _, hdone _ _ _ _, Or.inr ⟨c, hc, rfl⟩⟩
    | refreshedExit c f hc hf h1 hz hold h2 hm' =>
      refine ⟨?_, fun r' e => Step.noConfusion e⟩
      intro o r' e
      injection e with e1 e2
      subst e1 e2
      exact ⟨m, hr.advance _ (hset _) _ _ _, hdone _ _ _ _, Or.inl rfl⟩
    | refreshedNext c f hc hf h1 hz hold h2 hm' =>
      refine ⟨fun o r' e => Step.noConfusion e, ?_⟩
      intro r' e
      injection e with e1
      subst e1
      exact ⟨hr.advance _ (hset _) _ _ _, hnext _ _ _ _ (List.mem_cons_self _ _)⟩
    | coolingExit c f hc hf h1 hz hnew hm' =>
      refine ⟨?_, fun r' e => Step.noConfusion e⟩
      intro o r' e
      injection e with e1 e2
      subst e1 e2
      exact ⟨m, hr.advance _ hr.flen _ _ _, hdone _ _ _ _, Or.inl rfl⟩
    | coolingNext c f hc hf h1 hz hnew hm' =>
      refine ⟨fun o r' e => Step.noConfusion e, ?_⟩
      intro r' e
      injection e with e1
      subst e1
      exact ⟨hr.advance _ hr.flen _ _ _, hnext _ _ _ _ (List.mem_cons_self _ _)⟩
  exact loop_partial env (k : Int)
    (fun r => ∃ m, At cl k it0 m r ∧
      ∃ new, r.probes = new ++ log0 ∧ ∀ j, j < m → ((k + j) % cl.length, false) ∈ new)
    (Traced cl k it0 log0)
    (by
      rintro r o r' ⟨m, hr, hl⟩ hb
      exact (key r m hr hl _ (hr.step hk env)).1 o r' hb)
    (by
      rintro r r' ⟨m, hr, hl⟩ hb
      exact ⟨m + 1, (key r m hr hl _ (hr.step hk env)).2 r' hb⟩)
    fuel r o r' ⟨0, hr, [], by rw [hlog]; rfl, fun j hj => absurd hj (Nat.not_lt_zero j)⟩ hloop

/-- A call of `Get` on a well-formed pool with cursor `k`, when it returns. -/
theorem Get_traced (env : Env) (r : Run) (k : Nat) (fuel : Nat) (o : Outcome) (r' : Run)
    (hwf : WellFormed r.lb) (hk : r.lb.currentIndex = (k : Int))
    (hget : Get env fuel r = some (o, r')) :
    Traced r.lb.clients k r.iters r.probes o r' := by
  obtain ⟨hlt, hat⟩ := At.start hwf hk
  unfold Get at hget
  rw [hk] at hget
  exact loop_traced env r.lb.clients k r.iters r.probes hlt fuel r o r' hat rfl hget

/-- A sweep that starts right after index `a` and comes back to `a` in its
iteration number `m` has been through every other offset before. -/
theorem offset_before_wrap (a d m n : Nat) (ha : a < n) (hd : d < n)
    (hm : ((a + 1) % n + m) % n = a) (hne : ((a + 1) % n + d) % n ≠ a) : d < m := by
  have shift : ∀ x, ((a + 1) % n + x) % n = (a + (x + 1)) % n := by
    intro x
    rw [Nat.add_mod, Nat.mod_mod, ← Nat.add_mod]
    congr 1
    omega
  rw [shift] at hm hne
  have hm0 : (m + 1) % n = 0 := by
    have h := (cursor_eq_start_iff a (m + 1) n ha).mp (by exact_mod_cast hm)
    exact h
  have hle : n ≤ m + 1 := Nat.le_of_dvd (Nat.succ_pos m) (Nat.dvd_of_mod_eq_zero hm0)
  by_contra hge
  have hdn : d + 1 = n := by omega
  apply hne
  rw [hdn, Nat.add_mod_right, Nat.mod_eq_of_lt ha]
/-- C8 (amended): on a well-formed pool, for every health oracle and clock,
when two back-to-back calls of `Get` both succeed and return the same index
`i`, the second call has probed every other index of the pool and seen it
unhealthy before returning `i`.  (Two successful calls in a row may return the
same index also when `N ≥ 2`: when every other endpoint is unhealthy.) -/
theorem Get_twice_same_index (env : Env) (r r1 r2 : Run) (fuel1 fuel2 : Nat)
    (i : Int) (c1 c2 : Option Client)
    (hwf : WellFormed r.lb)
    (h1 : Get env fuel1 r = some (.ret i c1 none, r1))
    (h2 : Get env fuel2 r1 = some (.ret i c2 none, r2)) :
    ∃ new, r2.probes = new ++ r1.probes ∧
      ∀ j : Nat, j < r.lb.clients.length → (j : Int) ≠ i → (j, false) ∈ new := by
  obtain ⟨_, _, h0, _⟩ := id hwf
  obtain ⟨k, hk⟩ := Int.eq_ofNat_of_zero_le h0
  obtain ⟨hlt, -⟩ := At.start hwf hk
  have hN : 0 < r.lb.clients.length := by omega
  obtain ⟨m1, hat1, -, ho1⟩ := Get_traced env r k fuel1 _ r1 hwf hk h1
  have hi1 : i = (((k + m1) % r.lb.clients.length : Nat) : Int) := by
    rcases ho1 with e | ⟨c, _, e⟩
    · injection e with _ _ e3
      exact Option.noConfusion e3
    · injection e with e1 _ _
  have hcl1 : r1.lb.clients = r.lb.clients := hat1.clients
  have hwf1 : WellFormed r1.lb := hat1.wellFormed hN
  have hshift : (k + (m1 + 1)) % r.lb.clients.length =
      ((k + m1) % r.lb.clients.length + 1) % r.lb.clients.length := by
    rw [← Nat.add_assoc, Nat.add_mod (k + m1) 1, Nat.add_mod ((k + m1) % _) 1, Nat.mod_mod]
  have hk1 : r1.lb.currentIndex =
      ((((k + m1) % r.lb.clients.length + 1) % r.lb.clients.length : Nat) : Int) := by
    rw [hat1.cur, hshift]
  obtain ⟨m2, -, ⟨new, hnew, hmem⟩, ho2⟩ := Get_traced env r1 _ fuel2 _ r2 hwf1 hk1 h2
  rw [hcl1] at hmem ho2
  have hi2 : i = (((((k + m1) % r.lb.clients.length + 1) % r.lb.clients.length + m2) %
      r.lb.clients.length : Nat) : Int) := by
    rcases ho2 with e | ⟨c, _, e⟩
    · injection e with _ _ e3
      exact Option.noConfusion e3
    · injection e with e1 _ _
  have hback : (((k + m1) % r.lb.clients.length + 1) % r.lb.clients.length + m2) %
      r.lb.clients.length = (k + m1) % r.lb.clients.length := by
    have := hi2.symm.trans hi1
    exact_mod_cast this
  refine ⟨new, hnew, ?_⟩
  intro j hj hji
  obtain ⟨d, hd, hdj⟩ := offset_exists
    (((k + m1) % r.lb.clients.length + 1) % r.lb.clients.length) j _ hj (Nat.mod_lt _ hN)
  have hdm : d < m2 := by
    apply offset_before_wrap ((k + m1) % r.lb.clients.length) d m2 _ (Nat.mod_lt _ hN) hd hback
    rw [hdj]
    intro e
    apply hji
    rw [hi1, e]
  have := hmem d hdm
  rwa [hdj] at this

/-- C8 (counterexample): a well-formed pool of `N = 2` endpoints, index 0
healthy and index 1 unhealthy, on which two back-to-back calls of `Get` both
succeed and both return index 0. -/
theorem Get_twice_returns_same_index :
    WellFormed poolC8 ∧ 2 ≤ poolC8.clients.length ∧
    Get envC8 2 (start poolC8) = some (.ret 0 (some ⟨10⟩) none, midC8) ∧
    Get envC8 2 midC8 = some (.ret 0 (some ⟨10⟩) none, afterC8) := by
  decide

theorem Get_twice_same_index_witness :
    ∃ new, afterC8.probes = new ++ midC8.probes ∧
      ∀ j : Nat, j < (start poolC8).lb.clients.length → (j : Int) ≠ 0 → (j, false) ∈ new :=
  Get_twice_same_index envC8 (start poolC8) midC8 afterC8 2 2 0 (some ⟨10⟩) (some ⟨10⟩)
    (by decide) (by decide) (by decide)

/-! ## Endpoints inside their cool-down window -/

/-- The loop leaves alone the failure timestamp of an index that is set and
stays less than ten minutes old at every clock reading from `q0` on. -/
theorem loop_keeps_cooling (env : Env) (cl : List Client) (k it0 q0 : Nat)
    (hk : k < cl.length) (fuel : Nat) (r : Run) (o : Outcome) (r' : Run)
    (hr : At cl k it0 0 r) (hq : q0 ≤ r.nclock)
    (i : Nat) (f : Time) (hf : r.lb.failures[i]? = some f) (hz : f ≠ zeroTime)
    (hcool : ∀ q, q0 ≤ q → env.Now q - f < 10 * Minute)
    (hloop : loop env (k : Int) fuel r = some (o, r')) :
    r'.lb.failures[i]? = some f := by
  have hnot : ∀ q, q0 ≤ q → ¬ 10 * Minute ≤ Sub (env.Now q) f := by
    intro q hq' h
    have h1 := (ten_minutes_le_Sub _ _).mp h
    exact absurd (hcool q hq') (not_lt.mpr h1)
  have key : ∀ r m, At cl k it0 m r → q0 ≤ r.nclock → r.lb.failures[i]? = some f →
      ∀ st, Iter env cl k m r st →
      (∀ o r', st = .done o r' → r'.lb.failures[i]? = some f) ∧
      (∀ r', st = .next r' → At cl k it0 (m + 1) r' ∧ q0 ≤ r'.nclock ∧
        r'.lb.failures[i]? = some f) := by
    intro r m hr hq hfi st hst
    have hset : ∀ t, (r.lb.failures.set ((k + m) % cl.length) t).length = cl.length := by
      intro t; rw [List.length_set, hr.flen]
    have hother : ∀ (g t : Time), r.lb.failures[(k + m) % cl.length]? = some g → g ≠ f →
        (r.lb.failures.set ((k + m) % cl.length) t)[i]? = some f := by
      intro g t hg hgf
      have hne : (k + m) % cl.length ≠ i := by
        intro e
        rw [e, hfi] at hg
        injection hg with e'
        exact hgf e'.symm
      rw [List.getElem?_set_ne hne]
      exact hfi
    cases hst with
    | healthy c hc h1 =>
      refine ⟨?_, fun r' e => Step.noConfusion e⟩
      intro o r' e
      injection e with e1 e2
      subst e1 e2
      exact hfi
    | marked c hc hf' h1 =>
      refine ⟨fun o r' e => Step.noConfusion e, ?_⟩
      intro r' e
      injection e with e1
      subst e1
      exact ⟨hr.advance _ (hset _) _ _ _, Nat.le_succ_of_le hq,
        hother 0 _ hf' (fun e => hz e.symm)⟩
    | revived c g hc hg h1 hz' hold h2 =>
      refine ⟨?_, fun r' e => Step.noConfusion e⟩
      intro o r' e
      injection e with e1 e2
      subst e1 e2
      exact hother g _ hg (fun e => hnot _ hq (e ▸ hold))
    | refreshedExit c g hc hg h1 hz' hold h2 hm' =>
      refine ⟨?_, fun r' e => Step.noConfusion e⟩
      intro o r' e
      injection e with e1 e2
      subst e1 e2
      exact hother g _ hg (fun e => hnot _ hq (e ▸ hold))
    | refreshedNext c g hc hg h1 hz' hold h2 hm' =>
      refine ⟨fun o r' e => Step.noConfusion e, ?_⟩
      intro r' e
      injection e with e1
      subst e1
      exact ⟨hr.advance _ (hset _) _ _ _, Nat.le_trans hq (Nat.le_add_right _ _),
        hother g _ hg (fun e => hnot _ hq (e ▸ hold))⟩
    | coolingExit c g hc hg h1 hz' hnew hm' =>
      refine ⟨?_, fun r' e => Step.noConfusion e⟩
      intro o r' e
      injection e with e1 e2
      subst e1 e2
      exact hfi
    | coolingNext c g hc hg h1 hz' hnew hm' =>
      refine ⟨fun o r' e => Step.noConfusion e, ?_⟩
      intro r' e
      injection e with e1
      subst e1
      exact ⟨hr.advance _ hr.flen _ _ _, Nat.le_succ_of_le hq, hfi⟩
  exact loop_partial env (k : Int)
    (fun r => ∃ m, At cl k it0 m r ∧ q0 ≤ r.nclock ∧ r.lb.failures[i]? = some f)
    (fun _ r' => r'.lb.failures[i]? = some f)
    (by
      rintro r o r' ⟨m, hr, hq, hfi⟩ hb
      exact (key r m hr hq hfi _ (hr.step hk env)).1 o r' hb)
    (by
      rintro r r' ⟨m, hr, hq, hfi⟩ hb
      exact ⟨m + 1, (key r m hr hq hfi _ (hr.step hk env)).2 r' hb⟩)
    fuel r o r' ⟨0, hr, hq, hf⟩ hloop

/-- C10 (amended): on a well-formed pool in which every probe of the call
reports unhealthy (whether or not the endpoint is within its cool-down window)
and no clock reading of the call is the zero time, `Get` returns the
"no servers available" error, and every endpoint that is within its cool-down
window at every clock reading of the call (timestamp set, less than ten minutes
old) is skipped: its failure timestamp is left as it was. -/
theorem Get_all_unhealthy_skips_cooling (env : Env) (r : Run) (k : Nat)
    (hwf : WellFormed r.lb) (hk : r.lb.currentIndex = (k : Int))
    (hdown : ∀ p c, r.nprobe ≤ p → env.IsOnline p c = false)
    (hclock : ∀ q, r.nclock ≤ q → env.Now q ≠ zeroTime)
    (fuel : Nat) (hfuel : 2 * r.lb.clients.length ≤ fuel) :
    ∃ r', Get env fuel r = some (.ret (-1) none (some "no servers available"), r') ∧
      ∀ (i : Nat) (f : Time), r.lb.failures[i]? = some f → f ≠ zeroTime →
        (∀ q, r.nclock ≤ q → env.Now q - f < 10 * Minute) →
        r'.lb.failures[i]? = some f := by
  obtain ⟨hlt, hat⟩ := At.start hwf hk
  obtain ⟨r', hloop⟩ := loop_all_unhealthy env r.lb.clients k r.iters r.nprobe r.nclock hlt
    hdown hclock fuel r hat (Nat.le_refl _) (Nat.le_refl _) hfuel
  refine ⟨r', by unfold Get; rw [hk]; exact hloop, ?_⟩
  intro i f hf hz hcool
  exact loop_keeps_cooling env r.lb.clients k r.iters r.nclock hlt fuel r _ r' hat
    (Nat.le_refl _) i f hf hz hcool hloop

/-- C10 (counterexample): a well-formed pool of one endpoint whose failure
timestamp `100` is set and, the clock reading `200`, less than ten minutes old,
so the endpoint is within its cool-down window; the endpoint reports healthy,
and `Get` returns it with a nil error instead of the error. -/
theorem Get_returns_cooling_endpoint :
    WellFormed poolC10 ∧
    (∀ (i : Nat) (f : Time), poolC10.failures[i]? = some f →
      f ≠ zeroTime ∧ ∀ q, envC10.Now q - f < 10 * Minute) ∧
    Get envC10 1 (start poolC10) = some (.ret 0 (some ⟨10⟩) none, afterC10) := by
  refine ⟨by decide, ?_, by decide⟩
  intro i f hf
  have hi : i < 1 := (List.getElem?_eq_some_iff.mp hf).1
  have hi0 : i = 0 := by omega
  subst hi0
  have : poolC10.failures[0]? = some (100 : Time) := rfl
  rw [this] at hf
  injection hf with e
  subst e
  exact ⟨by decide, fun _ => by show (200 : Int) - 100 < 10 * Minute; decide⟩

theorem Get_all_unhealthy_skips_cooling_witness :
    ∃ r', Get envC10w 4 (start poolC10w) =
        some (.ret (-1) none (some "no servers available"), r') ∧
      ∀ (i : Nat) (f : Time), (start poolC10w).lb.failures[i]? = some f → f ≠ zeroTime →
        (∀ q, (start poolC10w).nclock ≤ q → envC10w.Now q - f < 10 * Minute) →
        r'.lb.failures[i]? = some f :=
  Get_all_unhealthy_skips_cooling envC10w (start poolC10w) 0 (by decide) rfl
    (fun _ _ _ => rfl) (fun _ _ => by show (200 : Int) ≠ 0; decide) 4 (by decide)

/-! ## Construction -/

theorem set_replicate_zero (n i : Nat) :
    (List.replicate n zeroTime).set i zeroTime = List.replicate n zeroTime := by
  apply List.ext_getElem?
  intro j
  rw [List.getElem?_set]
  split_ifs with h1 h2
  · subst h1
    rw [List.length_replicate] at h2
    rw [List.getElem?_replicate, if_pos h2]
  · subst h1
    rw [List.length_replicate] at h2
    rw [List.getElem?_replicate, if_neg h2]
  · rfl

/-- The loop of `New` when every endpoint that remains connects: the clients
are appended in order and the timestamps stay zero. -/
theorem newLoop_ok (dial : Dial) (ak sk : String) (secure : Bool) (d : Int) (n : Nat) :
    ∀ (endpoints : List String) (cs : List Client) (i : Nat) (clients : List Client),
      List.Forall₂ (fun e c => connect dial ak sk secure d e = .ok c) endpoints cs →
      newLoop dial ak sk secure d endpoints i clients (List.replicate n zeroTime) =
        .ok (clients ++ cs, List.replicate n zeroTime) := by
  intro endpoints
  induction endpoints with
  | nil =>
    intro cs i clients h
    cases h
    simp [newLoop]
  | cons e rest ih =>
    intro cs i clients h
    cases h with
    | cons hc hrest =>
      rename_i c cs'
      unfold newLoop
      rw [hc]
      simp only [set_replicate_zero]
      rw [ih cs' (i + 1) (clients ++ [c]) hrest]
      simp

/-- The loop of `New` stops with the error of the first endpoint that fails. -/
theorem newLoop_error (dial : Dial) (ak sk : String) (secure : Bool) (d : Int) (n : Nat) :
    ∀ (pre : List String) (e : String) (post : List String) (err : Error) (i : Nat)
      (clients : List Client),
      (∀ x, x ∈ pre → ∃ c, connect dial ak sk secure d x = .ok c) →
      connect dial ak sk secure d e = .error err →
      newLoop dial ak sk secure d (pre ++ e :: post) i clients (List.replicate n zeroTime) =
        .error err := by
  intro pre
  induction pre with
  | nil =>
    intro e post err i clients _ he
    simp only [List.nil_append]
    unfold newLoop
    rw [he]
  | cons x pre ih =>
    intro e post err i clients hpre he
    obtain ⟨c, hc⟩ := hpre x (List.mem_cons_self _ _)
    simp only [List.cons_append]
    unfold newLoop
    rw [hc]
    simp only [set_replicate_zero]
    exact ih e post err (i + 1) (clients ++ [c])
      (fun y hy => hpre y (List.mem_cons_of_mem _ hy)) he

/-- C11: with client creation and the initial health check as functions of
the endpoint (`connect` is their result for one endpoint), `New` goes through
the endpoints in order: if the endpoints before `e` all connect and `e` fails
with `err`, `New` returns `(nil, err)`, no pool; if every endpoint connects,
`New` returns, with a nil error, the pool whose clients are the created clients
in endpoint order, whose failures slice has the same length and holds the zero
time only, and whose `currentIndex` is 0. -/
theorem New_spec (dial : Dial) (endpoints : List String) (ak sk : String) (secure : Bool)
    (d : Int) :
    (∀ (pre : List String) (e : String) (post : List String) (err : Error),
      endpoints = pre ++ e :: post →
      (∀ x, x ∈ pre → ∃ c, connect dial ak sk secure d x = .ok c) →
      connect dial ak sk secure d e = .error err →
      New dial endpoints ak sk secure d = (none, some err)) ∧
    (∀ cs : List Client,
      List.Forall₂ (fun e c => connect dial ak sk secure d e = .ok c) endpoints cs →
      New dial endpoints ak sk secure d =
        (some { clients := cs, failures := List.replicate cs.length zeroTime,
                currentIndex := 0 }, none)) := by
  constructor
  · intro pre e post err hsplit hpre he
    subst hsplit
    unfold New
    simp only [newLoop_error dial ak sk secure d _ pre e post err 0 [] hpre he]
  · intro cs hall
    unfold New
    simp only [newLoop_ok dial ak sk secure d _ endpoints cs 0 [] hall, List.nil_append]
    rw [hall.length_eq]
/-- A factory that cannot create the client of endpoint "bad" and whose health
check fails for the client at address 4. -/
def dialC11 : Dial :=
  { New := fun e _ _ _ => if e = "bad" then .error "dial failed" else .ok ⟨e.length⟩,
    HealthCheck := fun c _ => if c.addr = 4 then .error "offline" else .ok () }

theorem New_spec_witness :
    New dialC11 ["a", "down", "bad"] "key" "secret" true 5 = (none, some "offline") ∧
    New dialC11 ["a", "bc"] "key" "secret" true 5 =
      (some { clients := [⟨1⟩, ⟨2⟩], failures := [0, 0], currentIndex := 0 }, none) :=
  ⟨(New_spec dialC11 ["a", "down", "bad"] "key" "secret" true 5).1 ["a"] "down" ["bad"]
      "offline" rfl
      (fun x hx => by
        have e : x = "a" := by simpa using hx
        subst e
        exact ⟨⟨1⟩, rfl⟩)
      rfl,
    (New_spec dialC11 ["a", "bc"] "key" "secret" true 5).2 [⟨1⟩, ⟨2⟩]
      (List.Forall₂.cons rfl (List.Forall₂.cons rfl List.Forall₂.nil))⟩

/-! ## The empty endpoint list -/

/-- C12 (what the code does at the failing input): on the empty endpoint list
`New` returns, with a nil error, a pool that has no client: nothing at
construction enforces `N ≥ 1`. -/
theorem New_empty_returns_pool (dial : Dial) (ak sk : String) (secure : Bool) (d : Int) :
    New dial [] ak sk secure d = (some emptyPool, none) ∧ emptyPool.clients.length = 0 :=
  ⟨rfl, rfl⟩

/-- C17: the pool `New` builds from a zero-length endpoint list has `N = 0`,
and on it `Get` (given fuel for one iteration) panics with the integer division
by zero of its first `% len(lb.clients)`, in its first iteration, before any
probe or clock access: the counts of both and the probe log are as they were,
and so is the pool. -/
theorem Get_empty_pool_panics (dial : Dial) (ak sk : String) (secure : Bool) (d : Int) :
    ∃ lb, New dial [] ak sk secure d = (some lb, none) ∧ lb.clients.length = 0 ∧
      ∀ (env : Env) (fuel p q : Nat) (log : List (Nat × Bool)) (it : Nat),
        Get env (fuel + 1) { lb := lb, nprobe := p, nclock := q, probes := log, iters := it } =
          some (.panicked "integer divide by zero",
            { lb := lb, nprobe := p, nclock := q, probes := log, iters := it + 1 }) :=
  ⟨emptyPool, rfl, rfl, fun _ _ _ _ _ _ => rfl⟩

/-! ## Well-formedness of the reachable pools -/

/-- What the loop of `New` returns when it returns without error. -/
theorem newLoop_lengths (dial : Dial) (ak sk : String) (secure : Bool) (d : Int) (n : Nat) :
    ∀ (endpoints : List String) (i : Nat) (clients cs : List Client) (fs : List Time),
      newLoop dial ak sk secure d endpoints i clients (List.replicate n zeroTime) = .ok (cs, fs) →
      cs.length = clients.length + endpoints.length ∧ fs = List.replicate n zeroTime := by
  intro endpoints
  induction endpoints with
  | nil =>
    intro i clients cs fs h
    simp only [newLoop, Except.ok.injEq, Prod.mk.injEq] at h
    obtain ⟨rfl, rfl⟩ := h
    exact ⟨rfl, rfl⟩
  | cons e rest ih =>
    intro i clients cs fs h
    unfold newLoop at h
    cases hc : connect dial ak sk secure d e with
    | error err =>
      rw [hc] at h
      exact Except.noConfusion h
    | ok c =>
      rw [hc] at h
      simp only [set_replicate_zero] at h
      obtain ⟨h1, h2⟩ := ih (i + 1) (clients ++ [c]) cs fs h
      refine ⟨?_, h2⟩
      rw [h1]
      simp only [List.length_append, List.length_cons, List.length_nil]
      omega

/-- The pool of a successful `New`. -/
theorem New_pool (dial : Dial) (endpoints : List String) (ak sk : String) (secure : Bool)
    (d : Int) (lb : LoadBalancer) (err : Option Error)
    (h : New dial endpoints ak sk secure d = (some lb, err)) :
    lb.clients.length = endpoints.length ∧
      lb.failures = List.replicate endpoints.length zeroTime ∧ lb.currentIndex = 0 := by
  unfold New at h
  simp only at h
  cases hl : newLoop dial ak sk secure d endpoints 0 []
      (List.replicate endpoints.length zeroTime) with
  | error e =>
    rw [hl] at h
    simp at h
  | ok p =>
    obtain ⟨cs, fs⟩ := p
    rw [hl] at h
    simp only [Prod.mk.injEq, Option.some.injEq] at h
    obtain ⟨h1, h2⟩ := newLoop_lengths dial ak sk secure d _ endpoints 0 [] cs fs hl
    obtain ⟨rfl, -⟩ := h
    exact ⟨by simpa using h1, h2, rfl⟩

/-- A returning call of `Get` on a well-formed pool returns three results (it
does not panic) and leaves a well-formed pool with the same clients and as many
failure timestamps. -/
theorem Get_preserves (env : Env) (fuel : Nat) (r : Run) (o : Outcome) (r' : Run)
    (hwf : WellFormed r.lb) (hget : Get env fuel r = some (o, r')) :
    WellFormed r'.lb ∧ r'.lb.clients = r.lb.clients ∧
      r'.lb.failures.length = r.lb.failures.length ∧
      ∃ idx client err, o = .ret idx client err := by
  obtain ⟨hlen, hN, h0, _⟩ := id hwf
  obtain ⟨k, hk⟩ := Int.eq_ofNat_of_zero_le h0
  obtain ⟨m, hat, -, ho⟩ := Get_traced env r k fuel o r' hwf hk hget
  refine ⟨hat.wellFormed hN, hat.clients, by rw [hat.flen, hlen], ?_⟩
  rcases ho with e | ⟨c, _, e⟩
  · exact ⟨_, _, _, e⟩
  · exact ⟨_, _, _, e⟩

/-- C14: every pool reachable from a successful `New` on a non-empty endpoint
list, through any calls of `Get` under any health oracle and clock, is
well-formed with `N = len(endpoints)`: `len(clients) = len(failures) = N ≥ 1`
and `0 ≤ currentIndex < N`; and every returning call of `Get` on it, whatever
its outcome, leaves a well-formed pool with the same clients sequence and the
same two lengths. -/
theorem Reachable_wellFormed (dial : Dial) (endpoints : List String) (ak sk : String)
    (secure : Bool) (d : Int) (lb : LoadBalancer)
    (hne : endpoints ≠ [])
    (h : Reachable dial endpoints ak sk secure d lb) :
    WellFormed lb ∧ lb.clients.length = endpoints.length ∧
      lb.failures.length = endpoints.length ∧
      ∀ (env : Env) (fuel : Nat) (r : Run) (o : Outcome) (r' : Run),
        r.lb = lb → Get env fuel r = some (o, r') →
        WellFormed r'.lb ∧ r'.lb.clients = lb.clients ∧
          r'.lb.clients.length = lb.clients.length ∧
          r'.lb.failures.length = lb.failures.length := by
  have hpos : 0 < endpoints.length := List.length_pos.mpr hne
  have main : WellFormed lb ∧ lb.clients.length = endpoints.length ∧
      lb.failures.length = endpoints.length := by
    induction h with
    | new lb hnew =>
      obtain ⟨h1, h2, h3⟩ := New_pool dial endpoints ak sk secure d lb none hnew
      have hf : lb.failures.length = endpoints.length := by rw [h2, List.length_replicate]
      refine ⟨⟨by rw [hf, h1], by omega, by rw [h3], ?_⟩, h1, hf⟩
      rw [h3, h1]
      exact_mod_cast hpos
    | get env fuel r o r' _ hget ih =>
      obtain ⟨hwf, hc, hf⟩ := ih
      obtain ⟨hwf', hc', hf', -⟩ := Get_preserves env fuel r o r' hwf hget
      exact ⟨hwf', by rw [hc', hc], by rw [hf', hf]⟩
  refine ⟨main.1, main.2.1, main.2.2, ?_⟩
  intro env fuel r o r' hr hget
  subst hr
  obtain ⟨hwf', hc', hf', -⟩ := Get_preserves env fuel r o r' main.1 hget
  exact ⟨hwf', hc', by rw [hc'], hf'⟩

theorem Reachable_wellFormed_witness :
    WellFormed poolC14 ∧ poolC14.clients.length = ["a", "bc"].length ∧
      poolC14.failures.length = ["a", "bc"].length ∧
      ∀ (env : Env) (fuel : Nat) (r : Run) (o : Outcome) (r' : Run),
        r.lb = poolC14 → Get env fuel r = some (o, r') →
        WellFormed r'.lb ∧ r'.lb.clients = poolC14.clients ∧
          r'.lb.clients.length = poolC14.clients.length ∧
          r'.lb.failures.length = poolC14.failures.length :=
  Reachable_wellFormed dialC11 ["a", "bc"] "key" "secret" true 5 poolC14 (by decide)
    (Reachable.new poolC14 rfl)

/-! ## The cursor after a call -/

theorem loop_cursor (env : Env) (cl : List Client) (k it0 : Nat)
    (hk : k < cl.length) (fuel : Nat) (r : Run) (o : Outcome) (r' : Run)
    (hr : At cl k it0 0 r)
    (hloop : loop env (k : Int) fuel r = some (o, r')) : CursorAfter cl k o r' := by
  have key : ∀ r m, At cl k it0 m r → ∀ st, Iter env cl k m r st →
      (∀ o r', st = .done o r' → CursorAfter cl k o r') ∧
      (∀ r', st = .next r' → At cl k it0 (m + 1) r') := by
    intro r m hr st hst
    have hset : ∀ t, (r.lb.failures.set ((k + m) % cl.length) t).length = cl.length := by
      intro t; rw [List.length_set, hr.flen]
    have hsucc : ∀ fs dp dc (log : List (Nat × Bool)),
        (after r ((k + m) % cl.length) fs dp dc log).lb.currentIndex =
          ((((k + m) % cl.length + 1) % cl.length : Nat) : Int) := by
      intro fs dp dc log
      show ((((k + m) % cl.length + 1) % r.lb.clients.length : Nat) : Int) = _
      rw [hr.clients]
    have hexit : ∀ fs dp dc (log : List (Nat × Bool)), fs.length = cl.length →
        (m + 1) % cl.length = 0 →
        (after r ((k + m) % cl.length) fs dp dc log).lb.currentIndex = (k : Int) := by
      intro fs dp dc log hfs hm
      rw [(hr.advance fs hfs dp dc log).cur]
      exact (cursor_eq_start_iff k (m + 1) cl.length hk).mpr hm
    cases hst with
    | healthy c hc h1 =>
      refine ⟨?_, fun r' e => Step.noConfusion e⟩
      intro o r' e
      injection e with e1 e2
      subst e1 e2
      exact Or.inr ⟨_, c, rfl, hsucc _ _ _ _⟩
    | marked c hc hf h1 =>
      refine ⟨fun o r' e => Step.noConfusion e, ?_⟩
      intro r' e
      injection e with e1
      subst e1
      exact hr.advance _ (hset _) _ _ _
    | revived c f hc hf h1 hz hold h2 =>
      refine ⟨?_, fun r' e => Step.noConfusion e⟩
      intro o r' e
      injection e with e1 e2
      subst e1 e2
      exact Or.inr ⟨_, c, rfl, hsucc _ _ _ _⟩
    | refreshedExit c f hc hf h1 hz hold h2 hm' =>
      refine ⟨?_, fun r' e => Step.noConfusion e⟩
      intro o r' e
      injection e with e1 e2
      subst e1 e2
      exact Or.inl ⟨rfl, hexit _ _ _ _ (hset _) hm'⟩
    | refreshedNext c f hc hf h1 hz hold h2 hm' =>
      refine ⟨fun o r' e => Step.noConfusion e, ?_⟩
      intro r' e
      injection e with e1
      subst e1
      exact hr.advance _ (hset _) _ _ _
    | coolingExit c f hc hf h1 hz hnew hm' =>
      refine ⟨?_, fun r' e => Step.noConfusion e⟩
      intro o r' e
      injection e with e1 e2
      subst e1 e2
      exact Or.inl ⟨rfl, hexit _ _ _ _ hr.flen hm'⟩
    | coolingNext c f hc hf h1 hz hnew hm' =>
      refine ⟨fun o r' e => Step.noConfusion e, ?_⟩
      intro r' e
      injection e with e1
      subst e1
      exact hr.advance _ hr.flen _ _ _
  exact loop_partial env (k : Int) (fun r => ∃ m, At cl k it0 m r) (CursorAfter cl k)
    (by
      rintro r o r' ⟨m, hr⟩ hb
      exact (key r m hr _ (hr.step hk env)).1 o r' hb)
    (by
      rintro r r' ⟨m, hr⟩ hb
      exact ⟨m + 1, (key r m hr _ (hr.step hk env)).2 r' hb⟩)
    fuel r o r' ⟨0, hr⟩ hloop

/-- C19: on a well-formed pool of `N` endpoints, for every health oracle and
clock, when `Get` returns `(idx, client, err)`: if `err` is nil (success with
index `idx`), `currentIndex` afterwards is `(idx + 1) mod N`; if `err` is the
"no servers available" error, `currentIndex` afterwards is what it was before
the call. -/
theorem Get_cursor_after (env : Env) (fuel : Nat) (r : Run)
    (idx : Int) (client : Option Client) (err : Option String) (r' : Run)
    (hwf : WellFormed r.lb)
    (hget : Get env fuel r = some (.ret idx client err, r')) :
    (err = none → r'.lb.currentIndex = (idx + 1) % (r.lb.clients.length : Int)) ∧
    (err = some "no servers available" → r'.lb.currentIndex = r.lb.currentIndex) := by
  obtain ⟨_, _, h0, _⟩ := id hwf
  obtain ⟨k, hk⟩ := Int.eq_ofNat_of_zero_le h0
  obtain ⟨hlt, hat⟩ := At.start hwf hk
  unfold Get at hget
  rw [hk] at hget
  rcases loop_cursor env r.lb.clients k r.iters hlt fuel r _ r' hat hget with ⟨e, hc⟩ | h
  · injection e with e1 e2 e3
    subst e1 e2 e3
    exact ⟨fun e => Option.noConfusion e, fun _ => by rw [hc, hk]⟩
  · obtain ⟨i, c, e, hc⟩ := h
    injection e with e1 e2 e3
    subst e1 e2 e3
    refine ⟨fun _ => ?_, fun e => Option.noConfusion e⟩
    rw [hc]
    push_cast
    rfl

theorem Get_cursor_after_witness :
    Get envC19 1 (start poolC19) = some (.ret 2 (some ⟨12⟩) none, afterC19) ∧
    ((none : Option String) = none →
      afterC19.lb.currentIndex = (2 + 1) % ((start poolC19).lb.clients.length : Int)) ∧
    ((none : Option String) = some "no servers available" →
      afterC19.lb.currentIndex = (start poolC19).lb.currentIndex) :=
  ⟨by decide,
    Get_cursor_after envC19 1 (start poolC19) 2 (some ⟨12⟩) none afterC19 (by decide)
      (by decide)⟩

/-! ## Termination within two sweeps -/

/-- More fuel does not change what the loop returns. -/
theorem loop_fuel_mono (env : Env) (startIdx : Int) :
    ∀ (fuel fuel' : Nat) (r : Run) (x : Outcome × Run), fuel ≤ fuel' →
      loop env startIdx fuel r = some x → loop env startIdx fuel' r = some x := by
  intro fuel
  induction fuel with
  | zero => intro fuel' r x _ h; simp [loop] at h
  | succ n ih =>
    intro fuel' r x hle h
    obtain ⟨n', rfl⟩ : ∃ n', fuel' = n' + 1 := ⟨fuel' - 1, by omega⟩
    unfold loop at h ⊢
    cases hb : body env startIdx r with
    | done o r1 =>
      rw [hb] at h
      exact h
    | next r1 =>
      rw [hb] at h
      exact ih n' r1 x (by omega) h

/-- With a clock that never reads the zero time the loop returns within two
sweeps, whatever the probes answer. -/
theorem loop_sweeps (env : Env) (cl : List Client) (k it0 q0 : Nat)
    (hk : k < cl.length)
    (hclock : ∀ q, q0 ≤ q → env.Now q ≠ zeroTime)
    (fuel : Nat) (r : Run) (hr : At cl k it0 0 r) (hq : q0 ≤ r.nclock)
    (hfuel : 2 * cl.length ≤ fuel) :
    ∃ o r', loop env (k : Int) fuel r = some (o, r') ∧ Swept cl k it0 o r' := by
  have key : ∀ r m, m < 2 * cl.length → At cl k it0 m r → q0 ≤ r.nclock →
      MarkedUpTo cl.length k m r.lb.failures → ∀ st, Iter env cl k m r st →
      (∀ o r', st = .done o r' → Swept cl k it0 o r') ∧
      (∀ r', st = .next r' → m + 1 < 2 * cl.length ∧ At cl k it0 (m + 1) r' ∧
        q0 ≤ r'.nclock ∧ MarkedUpTo cl.length k (m + 1) r'.lb.failures) := by
    intro r m hm hr hq hmk st hst
    have hset : ∀ t, (r.lb.failures.set ((k + m) % cl.length) t).length = cl.length := by
      intro t; rw [List.length_set, hr.flen]
    cases hst with
    | healthy c hc h1 =>
      refine ⟨?_, fun r' e => Step.noConfusion e⟩
      intro o r' e
      injection e with e1 e2
      subst e1 e2
      exact ⟨m, hm, hr.advance _ hr.flen _ _ _, Or.inr ⟨c, rfl⟩⟩
    | marked c hc hf h1 =>
      refine ⟨fun o r' e => Step.noConfusion e, ?_⟩
      intro r' e
      injection e with e1
      subst e1
      have hlt : m < cl.length := by
        by_contra hge
        exact hmk.second_sweep (by omega) (by omega) 0 hf rfl
      exact ⟨by omega, hr.advance _ (hset _) _ _ _, Nat.le_succ_of_le hq,
        hmk.set _ (hclock _ hq)⟩
    | revived c f hc hf h1 hz hold h2 =>
      refine ⟨?_, fun r' e => Step.noConfusion e⟩
      intro o r' e
      injection e with e1 e2
      subst e1 e2
      exact ⟨m, hm, hr.advance _ (hset _) _ _ _, Or.inr ⟨c, rfl⟩⟩
    | refreshedExit c f hc hf h1 hz hold h2 hm' =>
      refine ⟨?_, fun r' e => Step.noConfusion e⟩
      intro o r' e
      injection e with e1 e2
      subst e1 e2
      exact ⟨m, hm, hr.advance _ (hset _) _ _ _,
        Or.inl ⟨rfl, hm', hmk.set _ (hclock _ (by omega))⟩⟩
    | refreshedNext c f hc hf h1 hz hold h2 hm' =>
      refine ⟨fun o r' e => Step.noConfusion e, ?_⟩
      intro r' e
      injection e with e1
      subst e1
      exact ⟨mod_succ_lt_two m _ hm hm', hr.advance _ (hset _) _ _ _,
        Nat.le_trans hq (Nat.le_add_right _ _), hmk.set _ (hclock _ (by omega))⟩
    | coolingExit c f hc hf h1 hz hnew hm' =>
      refine ⟨?_, fun r' e => Step.noConfusion e⟩
      intro o r' e
      injection e with e1 e2
      subst e1 e2
      exact ⟨m, hm, hr.advance _ hr.flen _ _ _, Or.inl ⟨rfl, hm', hmk.keep f hf hz⟩⟩
    | coolingNext c f hc hf h1 hz hnew hm' =>
      refine ⟨fun o r' e => Step.noConfusion e, ?_⟩
      intro r' e
      injection e with e1
      subst e1
      exact ⟨mod_succ_lt_two m _ hm hm', hr.advance _ hr.flen _ _ _,
        Nat.le_succ_of_le hq, hmk.keep f hf hz⟩
  exact loop_total env (k : Int)
    (fun r => ∃ m, m < 2 * cl.length ∧ At cl k it0 m r ∧ q0 ≤ r.nclock ∧
      MarkedUpTo cl.length k m r.lb.failures)
    (Swept cl k it0) (fun r => it0 + 2 * cl.length - 1 - r.iters)
    (by
      rintro r o r' ⟨m, hm, hr, hq, hmk⟩ hb
      exact (key r m hm hr hq hmk _ (hr.step hk env)).1 o r' hb)
    (by
      rintro r r' ⟨m, hm, hr, hq, hmk⟩ hb
      obtain ⟨h1, h2, h3, h4⟩ := (key r m hm hr hq hmk _ (hr.step hk env)).2 r' hb
      exact ⟨⟨m + 1, h1, h2, h3, h4⟩, by simp only [h2.iters, hr.iters]; omega⟩)
    fuel r ⟨0, by omega, hr, hq, fun j hj => absurd hj (Nat.not_lt_zero j)⟩
    (by simp only [hr.iters]; omega)

/-- C18: on a well-formed pool of `N` endpoints, for every health oracle
(its answers may change from probe to probe) and every clock that does not read
the zero time during the call, `Get` with fuel for `2 N` iterations returns:
the loop runs at most `2 N` iterations, and the call returns its three results,
not a panic, so no index it used was out of range. -/
theorem Get_terminates (env : Env) (r : Run)
    (hwf : WellFormed r.lb)
    (hclock : ∀ q, r.nclock ≤ q → env.Now q ≠ zeroTime)
    (fuel : Nat) (hfuel : 2 * r.lb.clients.length ≤ fuel) :
    ∃ idx client err r', Get env fuel r = some (.ret idx client err, r') ∧
      r'.iters ≤ r.iters + 2 * r.lb.clients.length := by
  obtain ⟨_, _, h0, _⟩ := id hwf
  obtain ⟨k, hk⟩ := Int.eq_ofNat_of_zero_le h0
  obtain ⟨hlt, hat⟩ := At.start hwf hk
  obtain ⟨o, r', hloop, m, hm, hat', ho⟩ := loop_sweeps env r.lb.clients k r.iters r.nclock hlt
    hclock fuel r hat (Nat.le_refl _) hfuel
  have hit : r'.iters ≤ r.iters + 2 * r.lb.clients.length := by rw [hat'.iters]; omega
  unfold Get
  rw [hk]
  rcases ho with ⟨e, -, -⟩ | ⟨c, e⟩
  · exact ⟨_, _, _, r', by rw [hloop, e]; rfl, hit⟩
  · exact ⟨_, _, _, r', by rw [hloop, e]; rfl, hit⟩

theorem Get_terminates_witness :
    ∃ idx client err r', Get envC18 6 (start poolC18) = some (.ret idx client err, r') ∧
      r'.iters ≤ (start poolC18).iters + 2 * (start poolC18).lb.clients.length :=
  Get_terminates envC18 (start poolC18) (by decide)
    (fun q _ => by show (100 + (q : Int)) ≠ 0; omega) 6 (by decide)

/-- C20: on a well-formed pool, for every health oracle and every clock that
does not read the zero time during the call, if `Get` returns the
"no servers available" error then afterwards every index of the pool has a
failure timestamp that is set (not the zero time). -/
theorem Get_error_marks_all (env : Env) (fuel : Nat) (r : Run)
    (idx : Int) (client : Option Client) (r' : Run)
    (hwf : WellFormed r.lb)
    (hclock : ∀ q, r.nclock ≤ q → env.Now q ≠ zeroTime)
    (hget : Get env fuel r = some (.ret idx client (some "no servers available"), r')) :
    ∀ i, i < r.lb.clients.length →
      ∃ f, r'.lb.failures[i]? = some f ∧ f ≠ zeroTime := by
  obtain ⟨_, hN, h0, _⟩ := id hwf
  obtain ⟨k, hk⟩ := Int.eq_ofNat_of_zero_le h0
  obtain ⟨hlt, hat⟩ := At.start hwf hk
  unfold Get at hget
  rw [hk] at hget
  obtain ⟨o, r2, hloop, m, hm, hat', ho⟩ := loop_sweeps env r.lb.clients k r.iters r.nclock hlt
    hclock (max fuel (2 * r.lb.clients.length)) r hat (Nat.le_refl _) (Nat.le_max_right _ _)
  have hsame := loop_fuel_mono env (k : Int) fuel (max fuel (2 * r.lb.clients.length)) r _
    (Nat.le_max_left _ _) hget
  rw [hloop] at hsame
  simp only [Option.some.injEq, Prod.mk.injEq] at hsame
  obtain ⟨ho', hr2⟩ := hsame
  subst hr2
  rcases ho with ⟨-, hmod, hmk⟩ | ⟨c, e⟩
  · intro i hi
    have hle : r.lb.clients.length ≤ m + 1 :=
      Nat.le_of_dvd (Nat.succ_pos m) (Nat.dvd_of_mod_eq_zero hmod)
    obtain ⟨dd, hd, hdi⟩ := offset_exists k i _ hi hlt
    have hi' : i < r2.lb.failures.length := by rw [hat'.flen]; exact hi
    refine ⟨r2.lb.failures[i], List.getElem?_eq_getElem hi', ?_⟩
    apply hmk dd (by omega)
    rw [hdi]
    exact List.getElem?_eq_getElem hi'
  · rw [e] at ho'
    injection ho' with _ _ e3
    exact Option.noConfusion e3

theorem Get_error_marks_all_witness :
    Get envC20 6 (start poolC20) = some (failure, afterC20) ∧
    ∃ f, afterC20.lb.failures[2]? = some f ∧ f ≠ zeroTime :=
  ⟨by decide,
    Get_error_marks_all envC20 6 (start poolC20) (-1) none afterC20 (by decide)
      (fun q _ => by show (100 + (q : Int)) ≠ 0; omega) (by decide) 2 (by decide)⟩

/-! ## No re-probe inside the cool-down window -/

theorem visits_succ (n k i m : Nat) :
    visits n k i (m + 1) = visits n k i m + if (k + m) % n = i then 1 else 0 := by
  unfold visits
  rw [List.range_succ, List.countP_append, List.countP_singleton]
  simp

theorem probesOf_one (i j : Nat) (a : Bool) (log : List (Nat × Bool)) :
    probesOf i ((j, a) :: log) = probesOf i log + if j = i then 1 else 0 := by
  unfold probesOf
  rw [List.countP_cons]
  simp

/-- The loop leaves alone an index whose failure timestamp is set and stays
less than ten minutes old: the timestamp is kept, and every iteration that
examines the index makes one probe of it, the direct one. -/
theorem loop_cooling_untouched (env : Env) (cl : List Client) (k it0 q0 : Nat)
    (log0 : List (Nat × Bool))
    (hk : k < cl.length) (fuel : Nat) (r : Run) (o : Outcome) (r' : Run)
    (hr : At cl k it0 0 r) (hq : q0 ≤ r.nclock) (hlog : r.probes = log0)
    (i : Nat) (f : Time) (hf : r.lb.failures[i]? = some f) (hz : f ≠ zeroTime)
    (hcool : ∀ q, q0 ≤ q → env.Now q - f < 10 * Minute)
    (hloop : loop env (k : Int) fuel r = some (o, r')) :
    r'.lb.failures[i]? = some f ∧
      ∃ m new, r'.iters = it0 + m ∧ r'.probes = new ++ log0 ∧
        probesOf i new = visits cl.length k i m := by
  have hnot : ∀ q, q0 ≤ q → ¬ 10 * Minute ≤ Sub (env.Now q) f := by
    intro q hq' h
    have h1 := (ten_minutes_le_Sub _ _).mp h
    exact absurd (hcool q hq') (not_lt.mpr h1)
  have key : ∀ r m, At cl k it0 m r → q0 ≤ r.nclock → r.lb.failures[i]? = some f →
      (∃ new, r.probes = new ++ log0 ∧ probesOf i new = visits cl.length k i m) →
      ∀ st, Iter env cl k m r st →
      ∀ r', (st = .next r' ∨ ∃ o, st = .done o r') →
        At cl k it0 (m + 1) r' ∧ q0 ≤ r'.nclock ∧ r'.lb.failures[i]? = some f ∧
          ∃ new, r'.probes = new ++ log0 ∧ probesOf i new = visits cl.length k i (m + 1) := by
    intro r m hr hq hfi hlog st hst r' hst'
    obtain ⟨new, hnew, hcount⟩ := hlog
    have hset : ∀ t, (r.lb.failures.set ((k + m) % cl.length) t).length = cl.length := by
      intro t; rw [List.length_set, hr.flen]
    have hne_of : ∀ (g : Time), r.lb.failures[(k + m) % cl.length]? = some g → g ≠ f →
        (k + m) % cl.length ≠ i := by
      intro g hg hgf e
      rw [e, hfi] at hg
      injection hg with e'
      exact hgf e'.symm
    have hother : ∀ (t : Time), (k + m) % cl.length ≠ i →
        (r.lb.failures.set ((k + m) % cl.length) t)[i]? = some f := by
      intro t hne
      rw [List.getElem?_set_ne hne]
      exact hfi
    have hone : ∀ fs dp dc (a : Bool),
        ∃ new', (after r ((k + m) % cl.length) fs dp dc [((k + m) % cl.length, a)]).probes =
            new' ++ log0 ∧ probesOf i new' = visits cl.length k i (m + 1) := by
      intro fs dp dc a
      refine ⟨((k + m) % cl.length, a) :: new, by
        show [((k + m) % cl.length, a)] ++ r.probes = _
        rw [hnew]; rfl, ?_⟩
      rw [probesOf_one, visits_succ, hcount]
    have htwo : ∀ fs dp dc (a b : Bool), (k + m) % cl.length ≠ i →
        ∃ new', (after r ((k + m) % cl.length) fs dp dc
            [((k + m) % cl.length, a), ((k + m) % cl.length, b)]).probes = new' ++ log0 ∧
          probesOf i new' = visits cl.length k i (m + 1) := by
      intro fs dp dc a b hne
      refine ⟨((k + m) % cl.length, a) :: ((k + m) % cl.length, b) :: new, by
        show [((k + m) % cl.length, a), ((k + m) % cl.length, b)] ++ r.probes = _
        rw [hnew]; rfl, ?_⟩
      rw [probesOf_one, probesOf_one, visits_succ, hcount, if_neg hne]
    have pick : ∀ (x : Run), (Step.next x = .next r' ∨ ∃ o, Step.next x = .done o r') →
        x = r' := by
      intro x h
      rcases h with e | ⟨o, e⟩
      · injection e
      · exact Step.noConfusion e
    have pick' : ∀ (o1 : Outcome) (x : Run),
        (Step.done o1 x = .next r' ∨ ∃ o, Step.done o1 x = .done o r') → x = r' := by
      intro o1 x h
      rcases h with e | ⟨o, e⟩
      · exact Step.noConfusion e
      · injection e
    cases hst with
    | healthy c hc h1 =>
      have e := pick' _ _ hst'
      subst e
      exact ⟨hr.advance _ hr.flen _ _ _, hq, hfi, hone _ _ _ _⟩
    | marked c hc hf' h1 =>
      have e := pick _ hst'
      subst e
      exact ⟨hr.advance _ (hset _) _ _ _, Nat.le_succ_of_le hq,
        hother _ (hne_of 0 hf' (fun e => hz e.symm)), hone _ _ _ _⟩
    | revived c g hc hg h1 hz' hold h2 =>
      have e := pick' _ _ hst'
      subst e
      have hne := hne_of g hg (fun e => hnot _ hq (e ▸ hold))
      exact ⟨hr.advance _ (hset _) _ _ _, Nat.le_succ_of_le hq, hother _ hne,
        htwo _ _ _ _ _ hne⟩
    | refreshedExit c g hc hg h1 hz' hold h2 hm' =>
      have e := pick' _ _ hst'
      subst e
      have hne := hne_of g hg (fun e => hnot _ hq (e ▸ hold))
      exact ⟨hr.advance _ (hset _) _ _ _, Nat.le_trans hq (Nat.le_add_right _ _), hother _ hne,
        htwo _ _ _ _ _ hne⟩
    | refreshedNext c g hc hg h1 hz' hold h2 hm' =>
      have e := pick _ hst'
      subst e
      have hne := hne_of g hg (fun e => hnot _ hq (e ▸ hold))
      exact ⟨hr.advance _ (hset _) _ _ _, Nat.le_trans hq (Nat.le_add_right _ _), hother _ hne,
        htwo _ _ _ _ _ hne⟩
    | coolingExit c g hc hg h1 hz' hnew' hm' =>
      have e := pick' _ _ hst'
      subst e
      exact ⟨hr.advance _ hr.flen _ _ _, Nat.le_succ_of_le hq, hfi, hone _ _ _ _⟩
    | coolingNext c g hc hg h1 hz' hnew' hm' =>
      have e := pick _ hst'
      subst e
      exact ⟨hr.advance _ hr.flen _ _ _, Nat.le_succ_of_le hq, hfi, hone _ _ _ _⟩
  exact loop_partial env (k : Int)
    (fun r => ∃ m, At cl k it0 m r ∧ q0 ≤ r.nclock ∧ r.lb.failures[i]? = some f ∧
      ∃ new, r.probes = new ++ log0 ∧ probesOf i new = visits cl.length k i m)
    (fun _ r' => r'.lb.failures[i]? = some f ∧
      ∃ m new, r'.iters = it0 + m ∧ r'.probes = new ++ log0 ∧
        probesOf i new = visits cl.length k i m)
    (by
      rintro r o r' ⟨m, hr, hq, hfi, hl⟩ hb
      obtain ⟨h1, -, h3, new, h4, h5⟩ :=
        key r m hr hq hfi hl _ (hr.step hk env) r' (Or.inr ⟨o, hb⟩)
      exact ⟨h3, m + 1, new, h1.iters, h4, h5⟩)
    (by
      rintro r r' ⟨m, hr, hq, hfi, hl⟩ hb
      exact ⟨m + 1, key r m hr hq hfi hl _ (hr.step hk env) r' (Or.inl hb)⟩)
    fuel r o r' ⟨0, hr, hq, hf, [], by rw [hlog]; rfl, rfl⟩ hloop

/-- C15: on a well-formed pool with cursor `k`, for every index `i` whose
failure timestamp `f` is set and is less than ten minutes old at every clock
reading of the call, a returning call of `Get` leaves `failures[i] = f`
(neither refreshed nor cleared) and makes no re-probe on `i`: the probes it
made on `i` are as many as the iterations that examined `i`, one direct probe
each. -/
theorem Get_cooling_untouched (env : Env) (fuel : Nat) (r : Run) (k : Nat)
    (o : Outcome) (r' : Run)
    (hwf : WellFormed r.lb) (hk : r.lb.currentIndex = (k : Int))
    (i : Nat) (f : Time) (hf : r.lb.failures[i]? = some f) (hz : f ≠ zeroTime)
    (hcool : ∀ q, r.nclock ≤ q → env.Now q - f < 10 * Minute)
    (hget : Get env fuel r = some (o, r')) :
    r'.lb.failures[i]? = some f ∧
      ∃ m new, r'.iters = r.iters + m ∧ r'.probes = new ++ r.probes ∧
        probesOf i new = visits r.lb.clients.length k i m := by
  obtain ⟨hlt, hat⟩ := At.start hwf hk
  unfold Get at hget
  rw [hk] at hget
  exact loop_cooling_untouched env r.lb.clients k r.iters r.nclock r.probes hlt fuel r o r' hat
    (Nat.le_refl _) rfl i f hf hz hcool hget

theorem Get_cooling_untouched_witness :
    Get envC15 4 (start poolC15) = some (failure, afterC15) ∧
    afterC15.lb.failures[0]? = some 100 ∧
      ∃ m new, afterC15.iters = (start poolC15).iters + m ∧
        afterC15.probes = new ++ (start poolC15).probes ∧
        probesOf 0 new = visits (start poolC15).lb.clients.length 0 0 m :=
  ⟨by decide,
    Get_cooling_untouched envC15 4 (start poolC15) 0 failure afterC15 (by decide) rfl 0 100 rfl
      (by decide) (fun _ _ => by show (200 : Int) - 100 < 10 * Minute; decide) (by decide)⟩

/-! ## The threshold of the re-probe -/

/-- C16 (amended): in an iteration at index `i` whose client `c` reports
unhealthy on the direct probe and whose failure timestamp `f` is set, `Get`
makes the re-probe exactly when at least ten minutes have elapsed since `f` at
the clock reading: with ten minutes or more (exactly ten minutes included) the
iteration makes a second probe of `i`; with less than ten minutes it makes the
direct probe only and leaves the failure timestamps unchanged. -/
theorem body_reprobe_iff (env : Env) (startIdx : Int) (r : Run) (i : Nat) (c : Client)
    (f : Time)
    (hcur : r.lb.currentIndex = (i : Int)) (hc : r.lb.clients[i]? = some c)
    (hf : r.lb.failures[i]? = some f) (hz : f ≠ zeroTime)
    (h1 : env.IsOnline r.nprobe c = false) :
    (10 * Minute ≤ env.Now r.nclock - f →
      (body env startIdx r).run.nprobe = r.nprobe + 2 ∧
      (body env startIdx r).run.probes =
        (i, env.IsOnline (r.nprobe + 1) c) :: (i, false) :: r.probes) ∧
    (env.Now r.nclock - f < 10 * Minute →
      (body env startIdx r).run.nprobe = r.nprobe + 1 ∧
      (body env startIdx r).run.probes = (i, false) :: r.probes ∧
      (body env startIdx r).run.lb.failures = r.lb.failures) := by
  have hb := body_eq env startIdx r i c f hcur hc hf
  have hz' : ¬ f = 0 := hz
  unfold bodyAt at hb
  rw [if_neg (by rw [h1]; exact Bool.false_ne_true), if_neg hz'] at hb
  constructor
  · intro hold
    rw [if_pos ((ten_minutes_le_Sub _ _).mpr hold)] at hb
    rw [hb]
    by_cases h2 : env.IsOnline (r.nprobe + 1) c = true
    · rw [if_pos h2, h2]
      exact ⟨rfl, rfl⟩
    · rw [if_neg h2]
      have h2' : env.IsOnline (r.nprobe + 1) c = false := by simpa using h2
      rw [h2']
      unfold exitCheck
      split_ifs <;> exact ⟨rfl, rfl⟩
  · intro hnew
    have hn : ¬ 10 * Minute ≤ Sub (env.Now r.nclock) f := by
      intro h
      exact absurd hnew (not_lt.mpr ((ten_minutes_le_Sub _ _).mp h))
    rw [if_neg hn] at hb
    rw [hb]
    unfold exitCheck
    split_ifs <;> exact ⟨rfl, rfl, rfl⟩

/-- C16 (counterexample): the failure timestamp of index 0 is 100 and the clock
reads exactly ten minutes later; index 0 reports unhealthy on the direct probe,
and `Get` makes the re-probe (two probes of index 0), finds it healthy, clears
the timestamp and returns index 0. -/
theorem Get_reprobes_at_ten_minutes :
    envC16.Now 0 - 100 = 10 * Minute ∧
    Get envC16 1 (start poolC16) = some (.ret 0 (some ⟨10⟩) none, afterC16) ∧
    afterC16.nprobe = 2 ∧ afterC16.lb.failures ≠ poolC16.failures := by
  decide

theorem body_reprobe_iff_witness :
    (10 * Minute ≤ envC16.Now (start poolC16).nclock - 100 →
      (body envC16 0 (start poolC16)).run.nprobe = (start poolC16).nprobe + 2 ∧
      (body envC16 0 (start poolC16)).run.probes =
        (0, envC16.IsOnline ((start poolC16).nprobe + 1) ⟨10⟩) :: (0, false) ::
          (start poolC16).probes) ∧
    (envC16.Now (start poolC16).nclock - 100 < 10 * Minute →
      (body envC16 0 (start poolC16)).run.nprobe = (start poolC16).nprobe + 1 ∧
      (body envC16 0 (start poolC16)).run.probes = (0, false) :: (start poolC16).probes ∧
      (body envC16 0 (start poolC16)).run.lb.failures = (start poolC16).lb.failures) :=
  body_reprobe_iff envC16 0 (start poolC16) 0 ⟨10⟩ 100 rfl rfl rfl (by decide) rfl

end MC
